import Mathlib

/-!
# Verification of the Block-Kit rendering core of `mcrossman/trend7`

Shallow embedding of the block renderer implemented in
`frontend/app/components/blocks/` (`BlockRenderer.tsx`, `SectionBlock.tsx`,
`ContextBlock.tsx` (= `src/unnamed/part_004`), `ActionsBlock.tsx`,
`TimelineBlock.tsx`, `HeaderBlock.tsx` (= `src/unnamed/part_005` and
`part_006`)) together with the type definitions in `app/types/blocks.ts`.

Modelling conventions:
* Strings are Lean `String`s; the character-level rewriting performed by the
  JavaScript `String.prototype.replace` calls is modelled by executable
  scanners over `List Char`.
* Several renderer files contain two concatenated copies of the same
  component (an older Tailwind-class copy and a newer theme-token copy).
  Both copies are embedded, suffixed `Theme` (theme-token copy) and
  `Tailwind` (Tailwind copy).
* React JSX output is modelled as view trees whose fields record the
  `className` strings, the rendered text (for `dangerouslySetInnerHTML`, the
  produced HTML string) and, for buttons, the exact list of
  `(actionId, value)` invocations one click performs on the `onAction`
  callback.  The callback argument itself is modelled by its presence
  (`onAction : Bool`), which is the only thing rendering depends on.
* JavaScript line terminators inside the regex classes are modelled by the
  newline character.
-/

/-! ## Data model (`app/types/blocks.ts`) -/

/-- `TextObject { type: 'plain_text' | 'mrkdwn', text, emoji? }`.  The `type`
field is kept as a raw string because the renderers dispatch on the string
value at run time (wire data may carry any tag). -/
structure TextObject where
  type : String
  text : String
  emoji : Option Bool := none
  deriving DecidableEq, Repr

/-- `ButtonElement { type: 'button', text, action_id?, value?, style? }`.
The `style` field is kept as a raw string (`"primary"`, `"danger"`, …). -/
structure ButtonElement where
  text : TextObject
  action_id : Option String := none
  value : Option String := none
  style : Option String := none
  deriving DecidableEq, Repr

/-- `ImageElement { type: 'image', image_url, alt_text }`. -/
structure ImageElement where
  image_url : String
  alt_text : String
  deriving DecidableEq, Repr

/-- A section accessory: `ButtonElement | ImageElement`, discriminated by the
`type` field in the source. -/
inductive Accessory where
  | button (b : ButtonElement)
  | image (i : ImageElement)
  deriving DecidableEq, Repr

/-- An element of a `ContextBlock`: `TextObject | ImageElement`.  A
`TextObject`-shaped element carries its own raw `type` tag, so malformed tags
(neither `"mrkdwn"` nor `"plain_text"`) are representable. -/
inductive CtxElement where
  | text (t : TextObject)
  | image (i : ImageElement)
  deriving DecidableEq, Repr

/-- `TimelineEvent { year: number, title, article_id }`. -/
structure TimelineEvent where
  year : Int
  title : String
  article_id : String
  deriving DecidableEq, Repr

/-- The payload of a `SectionBlock` (all fields optional). -/
structure SectionB where
  text : Option TextObject := none
  fields : Option (List TextObject) := none
  accessory : Option Accessory := none
  deriving DecidableEq, Repr

/-- The `Block` tagged union of `app/types/blocks.ts`.  The extra
constructor `unknown` stands for a wire block whose `type` discriminator is
none of the six tags handled by the `switch` in `BlockRenderer.tsx`
(for example a block tagged `'image'`, which appears in `BlockType` but not
in the `Block` union nor in the switch). -/
inductive Block where
  | header (text : TextObject)
  | section (b : SectionB)
  | context (elements : List CtxElement)
  | actions (elements : List ButtonElement)
  | divider
  | timeline (events : List TimelineEvent)
  | unknown
  deriving DecidableEq, Repr

/-- JavaScript `x || d` for an optional string `x`: `undefined` and the empty
string are falsy, any other string is returned unchanged.  Used by
`handleAccessoryClick` (`SectionBlock.tsx`) and `handleClick`
(`ActionsBlock.tsx`) as `element.action_id || 'button'` and
`element.value || ''`. -/
def jsOrString (x : Option String) (d : String) : String :=
  match x with
  | none => d
  | some s => if s = "" then d else s

/-! ## The `String.prototype.replace` engine

The markdown-ish rewriting in `SectionBlock.tsx` and `ContextBlock.tsx` is a
chain of `text.replace(re, template)` calls with the global regexes
`/\*(.+?)\*/g`, `/_(.+?)_/g`, `/`(.+?)`/g` and `/&gt; (.+)/g`.

`replaceLazy d pre suf` models `replace(/d(.+?)d/g, pre + "$1" + suf)` for a
one-character delimiter `d`: scanning left to right, at a delimiter the
lazily-matched content is the shortest non-empty run of non-newline
characters followed by another `d`; the match is replaced by
`pre ++ content ++ suf` and scanning resumes after the closing delimiter; a
delimiter with no such closer is left literal.

`replaceGt pre suf` models `replace(/&gt; (.+)/g, pre + "$1" + suf)`: an
occurrence of the five characters `&gt; ` followed by a non-empty greedy run
of non-newline characters is replaced by `pre ++ run ++ suf`.
-/

/-- Find the lazy closing delimiter: `findClose d l = some (x, r)` iff
`l = x ++ d :: r` where `x` is the shortest non-empty prefix containing
neither `d` nor a newline.  `acc` accumulates the content in reverse. -/
def findCloseGo (d : Char) (acc : List Char) : List Char → Option (List Char × List Char)
  | [] => none
  | c :: rest =>
    if c = d then some (acc.reverse, rest)
    else if c = '\n' then none
    else findCloseGo d (c :: acc) rest

/-- See `findCloseGo`: the first character after the opening delimiter is
always content (the regex content `(.+?)` is non-empty), provided it is not a
newline. -/
def findClose (d : Char) : List Char → Option (List Char × List Char)
  | [] => none
  | c :: rest => if c = '\n' then none else findCloseGo d [c] rest

/-- Worker for `replaceLazy`.  The `skip` counter implements resuming the
scan after a replaced match while keeping the recursion structural: a
positive `skip` discards that many characters. -/
def rlGo (d : Char) (pre suf : List Char) : Nat → List Char → List Char
  | k + 1, _ :: rest => rlGo d pre suf k rest
  | _, [] => []
  | 0, c :: rest =>
    if c = d then
      match findClose d rest with
      | some p => pre ++ p.1 ++ suf ++ rlGo d pre suf (p.1.length + 1) rest
      | none => c :: rlGo d pre suf 0 rest
    else c :: rlGo d pre suf 0 rest

/-- `replaceLazy d pre suf` models the global lazy-pair regex replacement,
see the section comment above. -/
def replaceLazy (d : Char) (pre suf : List Char) (l : List Char) : List Char :=
  rlGo d pre suf 0 l

/-- The five-character trigger `&gt; ` of the blockquote regex. -/
def gtTrigger : List Char := ['&', 'g', 't', ';', ' ']

/-- Whether the list starts with the literal characters `&gt; `. -/
def isGtStart (l : List Char) : Prop := l.take 5 = gtTrigger

instance (l : List Char) : Decidable (isGtStart l) := by
  unfold isGtStart; infer_instance

/-- Worker for `replaceGt`; same `skip` technique as `rlGo`.  At a trigger
with non-empty rest-of-line content, the whole match (five trigger
characters plus the content) is replaced. -/
def gtGo (pre suf : List Char) : Nat → List Char → List Char
  | k + 1, _ :: rest => gtGo pre suf k rest
  | _, [] => []
  | 0, c :: rest =>
    if isGtStart (c :: rest) ∧ (rest.drop 4).takeWhile (· ≠ '\n') ≠ [] then
      pre ++ (rest.drop 4).takeWhile (· ≠ '\n') ++ suf ++
        gtGo pre suf (4 + ((rest.drop 4).takeWhile (· ≠ '\n')).length) rest
    else c :: gtGo pre suf 0 rest

/-- `replaceGt pre suf` models `replace(/&gt; (.+)/g, pre + "$1" + suf)`. -/
def replaceGt (pre suf : List Char) (l : List Char) : List Char :=
  gtGo pre suf 0 l

/-! ## Markdown-ish pipelines

`SectionBlock.tsx` (both copies) chains four `replace` calls on a
`'mrkdwn'` text: bold, italic, inline code, blockquote.  The bold and italic
replacement templates are identical in the two copies; the code and
blockquote templates differ only in the literal class strings.
`ContextBlock.tsx` (both copies) applies only the bold rule, with a class on
the inserted `<strong>` tag. -/

/-- `.replace(/\*(.+?)\*/g, '<strong>$1</strong>')` (both section copies). -/
def boldHtml (l : List Char) : List Char :=
  replaceLazy '*' "<strong>".data "</strong>".data l

/-- `.replace(/_(.+?)_/g, '<em>$1</em>')` (both section copies). -/
def italicHtml (l : List Char) : List Char :=
  replaceLazy '_' "<em>".data "</em>".data l

/-- Theme copy: `.replace(/`(.+?)`/g, '<code class="bg-muted px-1 rounded">$1</code>')`. -/
def codeHtmlTheme (l : List Char) : List Char :=
  replaceLazy '`' "<code class=\"bg-muted px-1 rounded\">".data "</code>".data l

/-- Tailwind copy: `.replace(/`(.+?)`/g, '<code class="bg-gray-100 px-1 rounded">$1</code>')`. -/
def codeHtmlTailwind (l : List Char) : List Char :=
  replaceLazy '`' "<code class=\"bg-gray-100 px-1 rounded\">".data "</code>".data l

/-- Theme copy: `.replace(/&gt; (.+)/g, '<blockquote class="border-l-4 border-border pl-3 my-2 text-muted-foreground">$1</blockquote>')`. -/
def quoteHtmlTheme (l : List Char) : List Char :=
  replaceGt "<blockquote class=\"border-l-4 border-border pl-3 my-2 text-muted-foreground\">".data
    "</blockquote>".data l

/-- Tailwind copy: `.replace(/&gt; (.+)/g, '<blockquote class="border-l-4 border-gray-300 pl-3 my-2 text-gray-600">$1</blockquote>')`. -/
def quoteHtmlTailwind (l : List Char) : List Char :=
  replaceGt "<blockquote class=\"border-l-4 border-gray-300 pl-3 my-2 text-gray-600\">".data
    "</blockquote>".data l

/-- The full `renderText` HTML computation of the theme copy of
`SectionBlockRenderer` (`SectionBlock.tsx`, lines 16-21). -/
def sectionMdTheme (s : String) : String :=
  ⟨quoteHtmlTheme (codeHtmlTheme (italicHtml (boldHtml s.data)))⟩

/-- The full `renderText` HTML computation of the Tailwind copy of
`SectionBlockRenderer` (`SectionBlock.tsx`, lines 84-88). -/
def sectionMdTailwind (s : String) : String :=
  ⟨quoteHtmlTailwind (codeHtmlTailwind (italicHtml (boldHtml s.data)))⟩

/-- The `'mrkdwn'` HTML computation of the theme copy of
`ContextBlockRenderer` (`ContextBlock.tsx` = `src/unnamed/part_004`,
lines 15-17): only the bold rule, with a class on the tag. -/
def ctxMdTheme (s : String) : String :=
  ⟨replaceLazy '*' "<strong class=\"text-foreground\">".data "</strong>".data s.data⟩

/-- The `'mrkdwn'` HTML computation of the Tailwind copy of
`ContextBlockRenderer` (`part_004`, lines 62-63). -/
def ctxMdTailwind (s : String) : String :=
  ⟨replaceLazy '*' "<strong class=\"text-gray-700\">".data "</strong>".data s.data⟩

/-! ## View model

JSX output is modelled structurally: `className` strings are recorded as
fields, `dangerouslySetInnerHTML` payloads as the computed HTML string, and a
button's `onClick` as the list of `(actionId, value)` invocations a single
click performs on the `onAction` callback (empty when the click is a no-op).
-/

/-- The view of one rendered text object inside a section (`renderText`):
either the markdown `div` with its computed inner HTML, or the plain `p`. -/
inductive TextView where
  | mrkdwnHtml (className : String) (html : String)
  | plain (className : String) (text : String)
  deriving DecidableEq, Repr

/-- A rendered `<button>`: its class string, the invocation list one click
performs, and its label (`accessory.text.text` / `element.text.text`). -/
structure ButtonView where
  className : String
  onClick : List (String × String)
  label : String
  deriving DecidableEq, Repr

/-- The view of a rendered `SectionBlock`: optional text, optional field
grid, and the accessory button when the accessory is a button (the JSX
renders nothing for any other accessory). -/
structure SectionView where
  text : Option TextView
  fields : Option (List TextView)
  button : Option ButtonView
  deriving DecidableEq, Repr

/-- The view of one rendered context element: markdown `span`, plain `span`,
or inline `img` icon. -/
inductive CtxElemView where
  | mdSpan (className : String) (html : String)
  | plainSpan (className : String) (text : String)
  | icon (className : String) (src : String) (alt : String)
  deriving DecidableEq, Repr

/-- The view of a rendered `ContextBlock`: the container class and the list
produced by `elements.map(renderElement)`, in which `none` is the `null`
React renders as nothing. -/
structure CtxView where
  className : String
  children : List (Option CtxElemView)
  deriving DecidableEq, Repr

/-- The view of a rendered `ActionsBlock`: a wrapped flex row of buttons. -/
structure ActionsView where
  className : String
  children : List ButtonView
  deriving DecidableEq, Repr

/-- The view of one rendered timeline event: year label, marker, truncated
title (full title kept as the hover `title` attribute) and the trailing
connector (present on every event except the last). -/
structure TLEntry where
  yearClass : String
  year : Int
  markerClass : String
  titleClass : String
  title : String
  titleAttr : String
  connector : Option String
  deriving DecidableEq, Repr

/-- The view of a rendered `TimelineBlock`. -/
structure TimelineView where
  entries : List TLEntry
  deriving DecidableEq, Repr

/-- The view of a rendered `HeaderBlock`. -/
structure HeaderView where
  className : String
  text : String
  deriving DecidableEq, Repr

/-- The view of one dispatched block (`BlockComponent` in
`BlockRenderer.tsx`): one constructor per `switch` case, plus the
`default` placeholder. -/
inductive BlockView where
  | header (v : HeaderView)
  | section (v : SectionView)
  | context (v : CtxView)
  | actions (v : ActionsView)
  | divider
  | timeline (v : TimelineView)
  | unknownPlaceholder (className : String) (text : String)
  deriving DecidableEq, Repr

/-- The view of the whole `BlockRenderer` dispatcher: the `space-y-3`
container and one child view per input block, in array order. -/
structure RootView where
  className : String
  children : List BlockView
  deriving DecidableEq, Repr

/-! ## Per-block renderers -/

/-- `renderText` of the theme copy of `SectionBlockRenderer`
(`SectionBlock.tsx`, lines 9-26). -/
def renderTextTheme (t : TextObject) : TextView :=
  if t.type = "mrkdwn" then
    .mrkdwnHtml "text-sm text-foreground whitespace-pre-wrap" (sectionMdTheme t.text)
  else .plain "text-sm text-foreground" t.text

/-- `renderText` of the Tailwind copy of `SectionBlockRenderer`
(`SectionBlock.tsx`, lines 77-94). -/
def renderTextTailwind (t : TextObject) : TextView :=
  if t.type = "mrkdwn" then
    .mrkdwnHtml "text-sm text-gray-700 whitespace-pre-wrap" (sectionMdTailwind t.text)
  else .plain "text-sm text-gray-700" t.text

/-- `handleAccessoryClick` (`SectionBlock.tsx`, lines 28-33, identical in both
copies): the invocation list one click performs — a single
`onAction(btn.action_id || 'button', btn.value || '')` call when the
accessory is a button and the callback is present, nothing otherwise. -/
def handleAccessoryClick (b : SectionB) (onAction : Bool) : List (String × String) :=
  match b.accessory, onAction with
  | some (.button btn), true => [(jsOrString btn.action_id "button", jsOrString btn.value "")]
  | _, _ => []

/-- The accessory button class of the theme section copy
(`SectionBlock.tsx`, lines 53-59). -/
def buttonClassTheme (style : Option String) : String :=
  "px-4 py-2 text-sm font-medium rounded transition-colors " ++
    (if style = some "primary" then "bg-primary text-primary-foreground hover:bg-primary/90"
     else if style = some "danger" then "bg-destructive text-destructive-foreground hover:bg-destructive/90"
     else "bg-secondary text-secondary-foreground hover:bg-secondary/80")

/-- The accessory button class of the Tailwind section copy
(`SectionBlock.tsx`, lines 121-127). -/
def buttonClassTailwind (style : Option String) : String :=
  "px-4 py-2 text-sm font-medium rounded transition-colors " ++
    (if style = some "primary" then "bg-blue-600 text-white hover:bg-blue-700"
     else if style = some "danger" then "bg-red-600 text-white hover:bg-red-700"
     else "bg-gray-200 text-gray-800 hover:bg-gray-300")

/-- The theme copy of `SectionBlockRenderer` (`SectionBlock.tsx`,
lines 8-67): optional text via `renderText`, optional two-column field grid
(each field via `renderText`), and — only when the accessory is a button — a
`<button>` wired to `handleAccessoryClick`.  An image accessory produces no
output at all (the JSX has no branch for it). -/
def sectionTheme (b : SectionB) (onAction : Bool) : SectionView where
  text := b.text.map renderTextTheme
  fields := b.fields.map (List.map renderTextTheme)
  button :=
    match b.accessory with
    | some (.button btn) =>
      some ⟨buttonClassTheme btn.style, handleAccessoryClick b onAction, btn.text.text⟩
    | _ => none

/-- The Tailwind copy of `SectionBlockRenderer` (`SectionBlock.tsx`,
lines 76-135). -/
def sectionTailwind (b : SectionB) (onAction : Bool) : SectionView where
  text := b.text.map renderTextTailwind
  fields := b.fields.map (List.map renderTextTailwind)
  button :=
    match b.accessory with
    | some (.button btn) =>
      some ⟨buttonClassTailwind btn.style, handleAccessoryClick b onAction, btn.text.text⟩
    | _ => none

/-- `renderElement` of the theme copy of `ContextBlockRenderer`
(`part_004`, lines 8-39): `'mrkdwn'` → bold-substituted HTML span,
`'plain_text'` → plain span, `'image'` → small inline icon, anything else →
`null` (rendered as nothing).  A `TextObject`-shaped element whose tag is
none of the recognized ones falls through every branch. -/
def renderElementTheme (e : CtxElement) : Option CtxElemView :=
  match e with
  | .text t =>
    if t.type = "mrkdwn" then some (.mdSpan "text-xs text-muted-foreground" (ctxMdTheme t.text))
    else if t.type = "plain_text" then some (.plainSpan "text-xs text-muted-foreground" t.text)
    else none
  | .image i => some (.icon "w-4 h-4 rounded" i.image_url i.alt_text)

/-- `renderElement` of the Tailwind copy of `ContextBlockRenderer`
(`part_004`, lines 55-86). -/
def renderElementTailwind (e : CtxElement) : Option CtxElemView :=
  match e with
  | .text t =>
    if t.type = "mrkdwn" then some (.mdSpan "text-xs text-gray-500" (ctxMdTailwind t.text))
    else if t.type = "plain_text" then some (.plainSpan "text-xs text-gray-500" t.text)
    else none
  | .image i => some (.icon "w-4 h-4 rounded" i.image_url i.alt_text)

/-- The theme copy of `ContextBlockRenderer` (`part_004`, lines 7-46). -/
def ctxTheme (elements : List CtxElement) : CtxView where
  className := "flex items-center gap-3 py-1"
  children := elements.map renderElementTheme

/-- The Tailwind copy of `ContextBlockRenderer` (`part_004`, lines 54-93). -/
def ctxTailwind (elements : List CtxElement) : CtxView where
  className := "flex items-center gap-3 py-1"
  children := elements.map renderElementTailwind

/-- `handleClick` of `ActionsBlockRenderer` (`ActionsBlock.tsx`, lines 8-13):
one click invokes `onAction(element.action_id || 'button',
element.value || '')` when the callback is present, nothing otherwise. -/
def handleClick (e : ButtonElement) (onAction : Bool) : List (String × String) :=
  if onAction then [(jsOrString e.action_id "button", jsOrString e.value "")] else []

/-- `ActionsBlockRenderer` (`ActionsBlock.tsx`, single copy; its button class
strings coincide with the theme section copy). -/
def actionsView (elements : List ButtonElement) (onAction : Bool) : ActionsView where
  className := "flex flex-wrap gap-2 py-2"
  children := elements.map fun e =>
    ⟨buttonClassTheme e.style, handleClick e onAction, e.text.text⟩

/-- `orderedInsert` step of the stable ascending-by-`year` sort: the new
event is placed before the first event whose year is `≥` its own, so events
with equal years keep their input order. -/
def insertByYear (e : TimelineEvent) : List TimelineEvent → List TimelineEvent
  | [] => [e]
  | x :: xs => if e.year ≤ x.year then e :: x :: xs else x :: insertByYear e xs

/-- `[...block.events].sort((a, b) => a.year - b.year)`
(`TimelineBlock.tsx`, both copies).  `Array.prototype.sort` is specified to
be stable and, with this comparator, sorts ascending by `year`; any stable
ascending-by-`year` sort computes the same list, here realized as an
insertion sort. -/
def sortEventsByYear : List TimelineEvent → List TimelineEvent
  | [] => []
  | e :: xs => insertByYear e (sortEventsByYear xs)

/-- The per-event JSX of the Tailwind copy of `TimelineBlockRenderer`
(`TimelineBlock.tsx`, lines 13-29): year label, marker, truncated title with
the full title as hover attribute, and a connector on every event except the
last (`index < sortedEvents.length - 1`). -/
def tlEntriesTailwind : List TimelineEvent → List TLEntry
  | [] => []
  | [e] =>
    [⟨"text-xs text-gray-500 mb-1", e.year, "w-3 h-3 bg-blue-600 rounded-full mx-auto",
      "text-xs text-gray-700 mt-1 max-w-[100px] truncate", e.title, e.title, none⟩]
  | e :: rest =>
    ⟨"text-xs text-gray-500 mb-1", e.year, "w-3 h-3 bg-blue-600 rounded-full mx-auto",
      "text-xs text-gray-700 mt-1 max-w-[100px] truncate", e.title, e.title,
      some "w-8 h-0.5 bg-gray-300 mx-2"⟩ :: tlEntriesTailwind rest

/-- The per-event JSX of the theme copy of `TimelineBlockRenderer`
(`TimelineBlock.tsx`, lines 47-63). -/
def tlEntriesTheme : List TimelineEvent → List TLEntry
  | [] => []
  | [e] =>
    [⟨"text-xs text-muted-foreground mb-1", e.year, "w-3 h-3 bg-primary rounded-full mx-auto",
      "text-xs text-foreground mt-1 max-w-[100px] truncate", e.title, e.title, none⟩]
  | e :: rest =>
    ⟨"text-xs text-muted-foreground mb-1", e.year, "w-3 h-3 bg-primary rounded-full mx-auto",
      "text-xs text-foreground mt-1 max-w-[100px] truncate", e.title, e.title,
      some "w-8 h-0.5 bg-border mx-2"⟩ :: tlEntriesTheme rest

/-- The Tailwind copy of `TimelineBlockRenderer` (`TimelineBlock.tsx`,
lines 7-33). -/
def timelineTailwind (events : List TimelineEvent) : TimelineView where
  entries := tlEntriesTailwind (sortEventsByYear events)

/-- The theme copy of `TimelineBlockRenderer` (`TimelineBlock.tsx`,
lines 41-67). -/
def timelineTheme (events : List TimelineEvent) : TimelineView where
  entries := tlEntriesTheme (sortEventsByYear events)

/-- The theme copy of `HeaderBlockRenderer` (`src/unnamed/part_006`). -/
def headerTheme (t : TextObject) : HeaderView where
  className := "text-xl font-bold text-foreground"
  text := t.text

/-- Modelled from the spec: `DividerBlockRenderer` — the file
`DividerBlock.tsx` is imported by `BlockRenderer.tsx` but absent from the
sources; per §4.2 it is "a stateless horizontal rule; no inputs, no
callback", so its view is the bare divider node. -/
def dividerView : BlockView := .divider

/-! ## Dispatcher (`BlockRenderer.tsx`) -/

/-- `BlockComponent` (`BlockRenderer.tsx`, lines 33-54): the `switch` on
`block.type`, dispatching to the per-block renderer (the theme copies) and
producing the visible "Unknown block type" placeholder in the `default`
case.  Total: every block value yields a view. -/
def blockComponent (b : Block) (onAction : Bool) : BlockView :=
  match b with
  | .header t => .header (headerTheme t)
  | .section s => .section (sectionTheme s onAction)
  | .context es => .context (ctxTheme es)
  | .actions es => .actions (actionsView es onAction)
  | .divider => dividerView
  | .timeline evs => .timeline (timelineTheme evs)
  | .unknown =>
    .unknownPlaceholder "text-sm text-destructive p-2 bg-destructive/10 rounded" "Unknown block type"

/-- `BlockRenderer` (`BlockRenderer.tsx`, lines 14-26): the `space-y-3`
container holding `blocks.map(...)` in array order. -/
def renderBlocks (blocks : List Block) (onAction : Bool) : RootView where
  className := "space-y-3"
  children := blocks.map (blockComponent · onAction)

/-! ## Properties of the `replace` engines -/

theorem rlGo_skip (d : Char) (pre suf : List Char) :
    ∀ (l : List Char) (k : Nat), rlGo d pre suf k l = rlGo d pre suf 0 (l.drop k) := by
  intro l
  induction l with
  | nil => intro k; cases k <;> simp [rlGo]
  | cons c rest ih =>
    intro k
    cases k with
    | zero => simp
    | succ k => simp [rlGo, ih k]

theorem findCloseGo_some (d : Char) :
    ∀ (l acc : List Char) (x r : List Char), findCloseGo d acc l = some (x, r) →
      acc.reverse ++ l = x ++ d :: r ∧
      (∀ c ∈ x, c ∈ acc ∨ c ∈ l) ∧ r.length < l.length := by
  intro l
  induction l with
  | nil => intro acc x r h; simp [findCloseGo] at h
  | cons c rest ih =>
    intro acc x r h
    by_cases hc : c = d
    · simp [findCloseGo, hc] at h
      obtain ⟨hx, hr⟩ := h
      subst hx; subst hr; subst hc
      refine ⟨rfl, ?_, by simp⟩
      intro ch hch
      exact Or.inl (by simpa using hch)
    · by_cases hn : c = '\n'
      · rw [show findCloseGo d acc (c :: rest) = none by subst hn; simp [findCloseGo, hc]] at h
        exact absurd h (by simp)
      · simp only [findCloseGo, if_neg hc, if_neg hn] at h
        obtain ⟨he, hmem, hlen⟩ := ih (c :: acc) x r h
        refine ⟨by simpa using he, ?_, by simp only [List.length_cons]; omega⟩
        intro ch hch
        rcases hmem ch hch with h' | h'
        · rcases List.mem_cons.mp h' with h'' | h''
          · exact Or.inr (by simp [h''])
          · exact Or.inl h''
        · exact Or.inr (List.mem_cons_of_mem _ h')

theorem findClose_some (d : Char) (l x r : List Char) (h : findClose d l = some (x, r)) :
    l = x ++ d :: r ∧ (∀ c ∈ x, c ∈ l) ∧ r.length < l.length := by
  cases l with
  | nil => simp [findClose] at h
  | cons c rest =>
    by_cases hn : c = '\n'
    · simp [findClose, hn] at h
    · simp only [findClose, if_neg hn] at h
      obtain ⟨he, hmem, hlen⟩ := findCloseGo_some d rest [c] x r h
      -- `[c].reverse ++ rest = x ++ d :: r`
      refine ⟨by simpa using he, ?_, by simpa using Nat.lt_succ_of_lt hlen⟩
      intro ch hch
      rcases hmem ch hch with h' | h'
      · simp at h'
        simp [h']
      · exact List.mem_cons_of_mem _ h'

theorem findCloseGo_clean (d : Char) :
    ∀ (x : List Char) (acc r : List Char), d ∉ x → '\n' ∉ x →
      findCloseGo d acc (x ++ d :: r) = some (acc.reverse ++ x, r) := by
  intro x
  induction x with
  | nil => intro acc r _ _; simp [findCloseGo]
  | cons c x' ih =>
    intro acc r hd hn
    have hcd : c ≠ d := fun h => hd (by simp [h])
    have hcn : c ≠ '\n' := fun h => hn (by simp [h])
    simp only [List.cons_append, findCloseGo, if_neg hcd, if_neg hcn]
    show findCloseGo d (c :: acc) (x' ++ d :: r) = _
    rw [ih (c :: acc) r (fun h => hd (List.mem_cons_of_mem _ h))
        (fun h => hn (List.mem_cons_of_mem _ h))]
    simp

theorem findClose_clean (d : Char) (x r : List Char) (hne : x ≠ []) (hd : d ∉ x)
    (hn : '\n' ∉ x) : findClose d (x ++ d :: r) = some (x, r) := by
  cases x with
  | nil => exact absurd rfl hne
  | cons c x' =>
    have hcn : c ≠ '\n' := fun h => hn (by simp [h])
    simp only [List.cons_append, findClose, if_neg hcn]
    rw [findCloseGo_clean d x' [c] r (fun h => hd (List.mem_cons_of_mem _ h))
        (fun h => hn (List.mem_cons_of_mem _ h))]
    simp

theorem findCloseGo_none (d : Char) :
    ∀ (l acc : List Char), d ∉ l → findCloseGo d acc l = none := by
  intro l
  induction l with
  | nil => intro acc _; simp [findCloseGo]
  | cons c rest ih =>
    intro acc hd
    have hcd : c ≠ d := fun h => hd (by simp [h])
    by_cases hn : c = '\n'
    · subst hn; simp [findCloseGo, hcd]
    · simp only [findCloseGo, if_neg hcd, if_neg hn]
      exact ih _ (fun h => hd (List.mem_cons_of_mem _ h))

theorem findClose_none (d : Char) (l : List Char) (hd : d ∉ l) : findClose d l = none := by
  cases l with
  | nil => simp [findClose]
  | cons c rest =>
    by_cases hn : c = '\n'
    · simp [findClose, hn]
    · simp only [findClose, if_neg hn]
      exact findCloseGo_none d rest [c] (fun h => hd (List.mem_cons_of_mem _ h))

theorem replaceLazy_nil (d : Char) (pre suf : List Char) :
    replaceLazy d pre suf [] = [] := rfl

theorem replaceLazy_cons_ne (d : Char) (pre suf : List Char) {c : Char} (l : List Char)
    (h : c ≠ d) : replaceLazy d pre suf (c :: l) = c :: replaceLazy d pre suf l := by
  simp [replaceLazy, rlGo, h]

theorem replaceLazy_cons_none (d : Char) (pre suf : List Char) (l : List Char)
    (h : findClose d l = none) :
    replaceLazy d pre suf (d :: l) = d :: replaceLazy d pre suf l := by
  simp [replaceLazy, rlGo, h]

theorem replaceLazy_cons_some (d : Char) (pre suf : List Char) (l x r : List Char)
    (h : findClose d l = some (x, r)) :
    replaceLazy d pre suf (d :: l) = pre ++ x ++ suf ++ replaceLazy d pre suf r := by
  obtain ⟨he, -, -⟩ := findClose_some d l x r h
  have h1 : replaceLazy d pre suf (d :: l) =
      pre ++ x ++ suf ++ rlGo d pre suf (x.length + 1) l := by
    simp [replaceLazy, rlGo, h]
  have h2 : l.drop (x.length + 1) = r := by
    rw [he, show x ++ d :: r = (x ++ [d]) ++ r by simp,
      show x.length + 1 = (x ++ [d]).length by simp, List.drop_left]
  rw [h1, rlGo_skip, h2]
  rfl

theorem replaceLazy_not_mem (d : Char) (pre suf : List Char) :
    ∀ (l : List Char), d ∉ l → replaceLazy d pre suf l = l := by
  intro l
  induction l with
  | nil => intro _; rfl
  | cons c rest ih =>
    intro hd
    have hcd : c ≠ d := fun h => hd (by simp [h])
    rw [replaceLazy_cons_ne d pre suf rest hcd, ih (fun h => hd (List.mem_cons_of_mem _ h))]

theorem replaceLazy_append_left (d : Char) (pre suf : List Char) :
    ∀ (a z : List Char), d ∉ a →
      replaceLazy d pre suf (a ++ z) = a ++ replaceLazy d pre suf z := by
  intro a
  induction a with
  | nil => intro z _; rfl
  | cons c a' ih =>
    intro z hd
    have hcd : c ≠ d := fun h => hd (by simp [h])
    rw [List.cons_append, replaceLazy_cons_ne d pre suf _ hcd,
      ih z (fun h => hd (List.mem_cons_of_mem _ h))]
    rfl

theorem replaceLazy_match (d : Char) (pre suf : List Char) (x b : List Char) (hne : x ≠ [])
    (hd : d ∉ x) (hn : '\n' ∉ x) :
    replaceLazy d pre suf (d :: (x ++ d :: b)) =
      pre ++ x ++ suf ++ replaceLazy d pre suf b :=
  replaceLazy_cons_some d pre suf _ x b (findClose_clean d x b hne hd hn)

theorem replaceLazy_single (d : Char) (pre suf : List Char) (a b : List Char) (ha : d ∉ a)
    (hb : d ∉ b) : replaceLazy d pre suf (a ++ d :: b) = a ++ d :: b := by
  rw [replaceLazy_append_left d pre suf a _ ha,
    replaceLazy_cons_none d pre suf b (findClose_none d b hb),
    replaceLazy_not_mem d pre suf b hb]

theorem mem_replaceLazy (d : Char) (pre suf : List Char) :
    ∀ (n : Nat) (l : List Char), l.length ≤ n →
      ∀ c ∈ replaceLazy d pre suf l, c ∈ l ∨ c ∈ pre ∨ c ∈ suf := by
  intro n
  induction n with
  | zero =>
    intro l hl c hc
    rw [List.length_eq_zero.mp (Nat.le_zero.mp hl)] at hc ⊢
    simp [replaceLazy_nil] at hc
  | succ n ih =>
    intro l hl c hc
    cases l with
    | nil => simp [replaceLazy_nil] at hc
    | cons c0 rest =>
      by_cases hc0 : c0 = d
      · replace hc0 := hc0.symm
        subst hc0
        cases hfc : findClose d rest with
        | none =>
          rw [replaceLazy_cons_none _ _ _ _ hfc] at hc
          rcases List.mem_cons.mp hc with h | h
          · exact Or.inl (by simp [h])
          · have hl' : rest.length ≤ n := by
              simp only [List.length_cons] at hl; omega
            rcases ih rest hl' c h with h' | h'
            · exact Or.inl (List.mem_cons_of_mem _ h')
            · exact Or.inr h'
        | some p =>
          obtain ⟨he, hmem, hlen⟩ := findClose_some d rest p.1 p.2 hfc
          rw [replaceLazy_cons_some _ _ _ _ _ _ hfc] at hc
          simp only [List.append_assoc, List.mem_append] at hc
          rcases hc with h | h | h | h
          · exact Or.inr (Or.inl h)
          · exact Or.inl (List.mem_cons_of_mem _ (hmem c h))
          · exact Or.inr (Or.inr h)
          · have hr : p.2.length ≤ n := by
              simp only [List.length_cons] at hl
              omega
            rcases ih p.2 hr c h with h' | h'
            · refine Or.inl (List.mem_cons_of_mem _ ?_)
              rw [he]
              simp [h']
            · exact Or.inr h'
      · rw [replaceLazy_cons_ne _ _ _ _ hc0] at hc
        rcases List.mem_cons.mp hc with h | h
        · exact Or.inl (by simp [h])
        · have hl' : rest.length ≤ n := by
            simp only [List.length_cons] at hl; omega
          rcases ih rest hl' c h with h' | h'
          · exact Or.inl (List.mem_cons_of_mem _ h')
          · exact Or.inr h'

theorem gtGo_skip (pre suf : List Char) :
    ∀ (l : List Char) (k : Nat), gtGo pre suf k l = gtGo pre suf 0 (l.drop k) := by
  intro l
  induction l with
  | nil => intro k; cases k <;> simp [gtGo]
  | cons c rest ih =>
    intro k
    cases k with
    | zero => simp
    | succ k => simp [gtGo, ih k]

theorem isGtStart_head {c : Char} {rest : List Char} (h : isGtStart (c :: rest)) : c = '&' := by
  simp only [isGtStart, gtTrigger, List.take_succ_cons] at h
  exact (List.cons.injEq _ _ _ _ ▸ h).1

theorem replaceGt_nil (pre suf : List Char) : replaceGt pre suf [] = [] := rfl

theorem replaceGt_cons_neg (pre suf : List Char) {c : Char} (l : List Char)
    (h : ¬(isGtStart (c :: l) ∧ (l.drop 4).takeWhile (· ≠ '\n') ≠ [])) :
    replaceGt pre suf (c :: l) = c :: replaceGt pre suf l := by
  simp only [replaceGt, gtGo, if_neg h]

theorem replaceGt_not_mem (pre suf : List Char) :
    ∀ (l : List Char), '&' ∉ l → replaceGt pre suf l = l := by
  intro l
  induction l with
  | nil => intro _; rfl
  | cons c rest ih =>
    intro ha
    have hcs : ¬(isGtStart (c :: rest) ∧ (rest.drop 4).takeWhile (· ≠ '\n') ≠ []) := by
      rintro ⟨hs, -⟩
      exact ha (by simp [isGtStart_head hs])
    rw [replaceGt_cons_neg pre suf rest hcs, ih (fun h => ha (List.mem_cons_of_mem _ h))]

theorem replaceGt_append_left (pre suf : List Char) :
    ∀ (a z : List Char), '&' ∉ a →
      replaceGt pre suf (a ++ z) = a ++ replaceGt pre suf z := by
  intro a
  induction a with
  | nil => intro z _; rfl
  | cons c a' ih =>
    intro z ha
    have hcs : ¬(isGtStart (c :: (a' ++ z)) ∧ ((a' ++ z).drop 4).takeWhile (· ≠ '\n') ≠ []) := by
      rintro ⟨hs, -⟩
      exact ha (by simp [isGtStart_head hs])
    rw [List.cons_append, replaceGt_cons_neg pre suf _ hcs,
      ih z (fun h => ha (List.mem_cons_of_mem _ h))]
    rfl

theorem gtGo_zero_cons (pre suf : List Char) (c : Char) (l : List Char) :
    gtGo pre suf 0 (c :: l) =
      if isGtStart (c :: l) ∧ (l.drop 4).takeWhile (· ≠ '\n') ≠ [] then
        pre ++ (l.drop 4).takeWhile (· ≠ '\n') ++ suf ++
          gtGo pre suf (4 + ((l.drop 4).takeWhile (· ≠ '\n')).length) l
      else c :: gtGo pre suf 0 l := rfl

theorem mem_of_takeWhile {α : Type} {p : α → Bool} :
    ∀ {l : List α} {c : α}, c ∈ l.takeWhile p → c ∈ l := by
  intro l
  induction l with
  | nil => intro c h; simp at h
  | cons a as ih =>
    intro c h
    rw [List.takeWhile_cons] at h
    by_cases hp : p a
    · rw [if_pos hp] at h
      rcases List.mem_cons.mp h with h | h
      · simp [h]
      · exact List.mem_cons_of_mem _ (ih h)
    · rw [if_neg hp] at h
      simp at h

theorem replaceGt_trigger (pre suf : List Char) (x : List Char) (hne : x ≠ [])
    (hn : '\n' ∉ x) : replaceGt pre suf (gtTrigger ++ x) = pre ++ x ++ suf := by
  have htw : x.takeWhile (· ≠ '\n') = x := by
    rw [List.takeWhile_eq_self_iff]
    intro a ha
    simp only [ne_eq, decide_eq_true_eq]
    exact fun h => hn (h ▸ ha)
  have hdrop : (['g', 't', ';', ' '] ++ x).drop 4 = x := by
    rw [show (4 : Nat) = (['g', 't', ';', ' '] : List Char).length from rfl, List.drop_left]
  have hstart : isGtStart ('&' :: (['g', 't', ';', ' '] ++ x)) := by
    simp [isGtStart, gtTrigger, List.take_succ_cons, List.take_append_eq_append_take]
  have hcond : isGtStart ('&' :: (['g', 't', ';', ' '] ++ x)) ∧
      ((['g', 't', ';', ' '] ++ x).drop 4).takeWhile (· ≠ '\n') ≠ [] := by
    refine ⟨hstart, ?_⟩
    rw [hdrop, htw]
    exact hne
  have hview : gtTrigger ++ x = '&' :: (['g', 't', ';', ' '] ++ x) := rfl
  rw [show replaceGt pre suf (gtTrigger ++ x) = gtGo pre suf 0 ('&' :: (['g', 't', ';', ' '] ++ x)) from rfl,
    gtGo_zero_cons, if_pos hcond, hdrop, htw, gtGo_skip]
  have hlen : (['g', 't', ';', ' '] ++ x).drop (4 + x.length) = [] := by
    rw [show 4 + x.length = ((['g', 't', ';', ' '] : List Char) ++ x).length by
      simp [List.length_append]; omega]
    exact List.drop_length _
  rw [hlen]
  simp [gtGo]

theorem mem_replaceGt (pre suf : List Char) :
    ∀ (n : Nat) (l : List Char), l.length ≤ n →
      ∀ c ∈ replaceGt pre suf l, c ∈ l ∨ c ∈ pre ∨ c ∈ suf := by
  intro n
  induction n with
  | zero =>
    intro l hl c hc
    rw [List.length_eq_zero.mp (Nat.le_zero.mp hl)] at hc ⊢
    simp [replaceGt_nil] at hc
  | succ n ih =>
    intro l hl c hc
    cases l with
    | nil => simp [replaceGt_nil] at hc
    | cons c0 rest =>
      by_cases hcond : isGtStart (c0 :: rest) ∧ (rest.drop 4).takeWhile (· ≠ '\n') ≠ []
      · rw [show replaceGt pre suf (c0 :: rest) = gtGo pre suf 0 (c0 :: rest) from rfl,
          gtGo_zero_cons, if_pos hcond, gtGo_skip] at hc
        simp only [List.append_assoc, List.mem_append] at hc
        rcases hc with h | h | h | h
        · exact Or.inr (Or.inl h)
        · exact Or.inl (List.mem_cons_of_mem _ (List.drop_subset _ _ (mem_of_takeWhile h)))
        · exact Or.inr (Or.inr h)
        · have hr : (rest.drop (4 + ((rest.drop 4).takeWhile (· ≠ '\n')).length)).length ≤ n := by
            have := List.length_drop (4 + ((rest.drop 4).takeWhile (· ≠ '\n')).length) rest
            simp only [List.length_cons] at hl
            omega
          rcases ih _ hr c h with h' | h'
          · exact Or.inl (List.mem_cons_of_mem _ (List.drop_subset _ _ h'))
          · exact Or.inr h'
      · rw [replaceGt_cons_neg pre suf rest hcond] at hc
        rcases List.mem_cons.mp hc with h | h
        · exact Or.inl (by simp [h])
        · have hl' : rest.length ≤ n := by
            simp only [List.length_cons] at hl; omega
          rcases ih rest hl' c h with h' | h'
          · exact Or.inl (List.mem_cons_of_mem _ h')
          · exact Or.inr h'

/-! ## Properties of the timeline sort -/

theorem insertByYear_perm (e : TimelineEvent) :
    ∀ (l : List TimelineEvent), (insertByYear e l).Perm (e :: l) := by
  intro l
  induction l with
  | nil => simp [insertByYear]
  | cons x xs ih =>
    by_cases h : e.year ≤ x.year
    · simp [insertByYear, h]
    · rw [show insertByYear e (x :: xs) = x :: insertByYear e xs by simp [insertByYear, h]]
      exact (ih.cons x).trans (List.Perm.swap e x xs)

theorem sortEventsByYear_perm :
    ∀ (l : List TimelineEvent), (sortEventsByYear l).Perm l := by
  intro l
  induction l with
  | nil => simp [sortEventsByYear]
  | cons e xs ih =>
    exact (insertByYear_perm e (sortEventsByYear xs)).trans (ih.cons e)

theorem insertByYear_pairwise (e : TimelineEvent) :
    ∀ (l : List TimelineEvent), l.Pairwise (fun a b => a.year ≤ b.year) →
      (insertByYear e l).Pairwise (fun a b => a.year ≤ b.year) := by
  intro l
  induction l with
  | nil => intro _; simp [insertByYear]
  | cons x xs ih =>
    intro hp
    rcases List.pairwise_cons.mp hp with ⟨hx, hxs⟩
    by_cases h : e.year ≤ x.year
    · rw [show insertByYear e (x :: xs) = e :: x :: xs by simp [insertByYear, h]]
      refine List.pairwise_cons.mpr ⟨?_, hp⟩
      intro b hb
      rcases List.mem_cons.mp hb with hb | hb
      · exact hb ▸ h
      · exact le_trans h (hx b hb)
    · rw [show insertByYear e (x :: xs) = x :: insertByYear e xs by simp [insertByYear, h]]
      refine List.pairwise_cons.mpr ⟨?_, ih hxs⟩
      intro b hb
      have hb' : b ∈ e :: xs := (insertByYear_perm e xs).mem_iff.mp hb
      rcases List.mem_cons.mp hb' with hb' | hb'
      · subst hb'
        omega
      · exact hx b hb'

theorem sortEventsByYear_pairwise :
    ∀ (l : List TimelineEvent),
      (sortEventsByYear l).Pairwise (fun a b => a.year ≤ b.year) := by
  intro l
  induction l with
  | nil => simp [sortEventsByYear]
  | cons e xs ih => exact insertByYear_pairwise e (sortEventsByYear xs) ih

theorem insertByYear_filter (e : TimelineEvent) (y : Int) :
    ∀ (l : List TimelineEvent),
      (insertByYear e l).filter (fun v => decide (v.year = y)) =
        if e.year = y then e :: l.filter (fun v => decide (v.year = y))
        else l.filter (fun v => decide (v.year = y)) := by
  intro l
  induction l with
  | nil =>
    by_cases h : e.year = y <;> simp [insertByYear, List.filter_cons, h]
  | cons x xs ih =>
    by_cases h : e.year ≤ x.year
    · rw [show insertByYear e (x :: xs) = e :: x :: xs by simp [insertByYear, h]]
      by_cases he : e.year = y <;> simp [List.filter_cons, he]
    · rw [show insertByYear e (x :: xs) = x :: insertByYear e xs by simp [insertByYear, h]]
      have hlt : x.year < e.year := by omega
      by_cases he : e.year = y
      · have hx : ¬ x.year = y := by omega
        simp [List.filter_cons, hx, ih, he]
      · by_cases hx : x.year = y <;> simp [List.filter_cons, hx, ih, he]

theorem sortEventsByYear_filter (y : Int) :
    ∀ (l : List TimelineEvent),
      (sortEventsByYear l).filter (fun v => decide (v.year = y)) =
        l.filter (fun v => decide (v.year = y)) := by
  intro l
  induction l with
  | nil => simp [sortEventsByYear]
  | cons e xs ih =>
    rw [show sortEventsByYear (e :: xs) = insertByYear e (sortEventsByYear xs) from rfl,
      insertByYear_filter]
    by_cases he : e.year = y <;> simp [List.filter_cons, he, ih]

/-! ## Properties of the timeline entry lists -/

theorem tlEntriesTheme_shape :
    ∀ (l : List TimelineEvent),
      (tlEntriesTheme l).map (fun en => (en.year, en.title, en.titleAttr)) =
        l.map (fun e => (e.year, e.title, e.title)) := by
  intro l
  induction l with
  | nil => simp [tlEntriesTheme]
  | cons e rest ih =>
    cases rest with
    | nil => simp [tlEntriesTheme]
    | cons f rest' =>
      rw [show tlEntriesTheme (e :: f :: rest') =
        ⟨"text-xs text-muted-foreground mb-1", e.year, "w-3 h-3 bg-primary rounded-full mx-auto",
          "text-xs text-foreground mt-1 max-w-[100px] truncate", e.title, e.title,
          some "w-8 h-0.5 bg-border mx-2"⟩ :: tlEntriesTheme (f :: rest') from rfl]
      simpa using ih

theorem tlEntriesTailwind_shape :
    ∀ (l : List TimelineEvent),
      (tlEntriesTailwind l).map (fun en => (en.year, en.title, en.titleAttr)) =
        l.map (fun e => (e.year, e.title, e.title)) := by
  intro l
  induction l with
  | nil => simp [tlEntriesTailwind]
  | cons e rest ih =>
    cases rest with
    | nil => simp [tlEntriesTailwind]
    | cons f rest' =>
      rw [show tlEntriesTailwind (e :: f :: rest') =
        ⟨"text-xs text-gray-500 mb-1", e.year, "w-3 h-3 bg-blue-600 rounded-full mx-auto",
          "text-xs text-gray-700 mt-1 max-w-[100px] truncate", e.title, e.title,
          some "w-8 h-0.5 bg-gray-300 mx-2"⟩ :: tlEntriesTailwind (f :: rest') from rfl]
      simpa using ih

/-! ## Styling erasure

The two copies of each duplicated renderer differ only in the literal
`class` strings.  For the HTML strings produced by the markdown pipelines the
styling lives inside inserted `class="…"` attributes; `stripe` deletes every
`class="…"` attribute (including the preceding space), which is the
string-level analogue of dropping the `className` fields of the view
model. -/

/-- The eight-character trigger ` class="` of a class attribute. -/
def classPat : List Char := [' ', 'c', 'l', 'a', 's', 's', '=', '"']

/-- Whether the list starts with the literal characters ` class="`. -/
def isClassStart (l : List Char) : Prop := l.take 8 = classPat

instance (l : List Char) : Decidable (isClassStart l) := by
  unfold isClassStart; infer_instance

/-- Worker for `stripe`; the `skip` counter discards the whole
` class="…"` attribute (trigger, quoted value and closing quote). -/
def stripeGo : Nat → List Char → List Char
  | k + 1, _ :: rest => stripeGo k rest
  | _, [] => []
  | 0, c :: rest =>
    if isClassStart (c :: rest) then
      stripeGo (7 + ((rest.drop 7).takeWhile (· ≠ '"')).length + 1) rest
    else c :: stripeGo 0 rest

/-- Delete every ` class="…"` attribute from a character list. -/
def stripe (l : List Char) : List Char := stripeGo 0 l

/-- Delete every ` class="…"` attribute from a string. -/
def stripeS (s : String) : String := ⟨stripe s.data⟩

theorem stripeGo_skip :
    ∀ (l : List Char) (k : Nat), stripeGo k l = stripeGo 0 (l.drop k) := by
  intro l
  induction l with
  | nil => intro k; cases k <;> simp [stripeGo]
  | cons c rest ih =>
    intro k
    cases k with
    | zero => simp
    | succ k => simp [stripeGo, ih k]

theorem not_isClassStart_of_quotefree {l : List Char} (h : '"' ∉ l.take 8) :
    ¬ isClassStart l := by
  intro hs
  exact h (by rw [isClassStart] at hs; rw [hs]; decide)

theorem stripe_cons_neg {c : Char} {l : List Char} (h : ¬ isClassStart (c :: l)) :
    stripe (c :: l) = c :: stripe l := by
  simp only [stripe, stripeGo, if_neg h]

theorem mem_take_of_take_le {c : Char} {v : List Char} {m : Nat} (hm : m ≤ 7)
    (h : c ∈ v.take m) : c ∈ v.take 7 := by
  have : v.take m = (v.take 7).take m := by
    rw [List.take_take]
    congr 1
    omega
  rw [this] at h
  exact List.take_subset _ _ h

theorem stripe_append_fresh :
    ∀ (w v : List Char), (∀ c ∈ w, c ≠ '"') → '"' ∉ v.take 7 →
      stripe (w ++ v) = w ++ stripe v := by
  intro w
  induction w with
  | nil => intro v _ _; rfl
  | cons c w' ih =>
    intro v hw hv
    have h8 : '"' ∉ ((c :: (w' ++ v)).take 8) := by
      intro hmem
      rw [List.take_succ_cons, List.take_append_eq_append_take] at hmem
      rcases List.mem_cons.mp hmem with h | h
      · exact hw c (by simp) h.symm
      · rcases List.mem_append.mp h with h | h
        · exact hw _ (List.mem_cons_of_mem _ (List.take_subset _ _ h)) rfl
        · exact hv (mem_take_of_take_le (by omega) h)
    rw [List.cons_append, stripe_cons_neg (not_isClassStart_of_quotefree h8),
      ih v (fun a ha => hw a (List.mem_cons_of_mem _ ha)) hv]
    rfl

/-- Prefixes (up to seven characters) of the output of `replaceLazy` contain
no double quote, provided the input is quote-free and the inserted opening
wrap keeps its first quote beyond position seven. -/
theorem quotefree_take_replaceLazy (d : Char) (p s : List Char)
    (hp7 : '"' ∉ p.take 7) (hpl : 7 ≤ p.length) :
    ∀ (n : Nat) (l : List Char), l.length ≤ n → (∀ c ∈ l, c ≠ '"') →
      ∀ m, m ≤ 7 → '"' ∉ (replaceLazy d p s l).take m := by
  intro n
  induction n with
  | zero =>
    intro l hl _ m _
    rw [List.length_eq_zero.mp (Nat.le_zero.mp hl)]
    simp [replaceLazy_nil]
  | succ n ih =>
    intro l hl hfree m hm
    cases l with
    | nil => simp [replaceLazy_nil]
    | cons c0 rest =>
      have hl' : rest.length ≤ n := by
        simp only [List.length_cons] at hl; omega
      have hfree' : ∀ c ∈ rest, c ≠ '"' :=
        fun c hc => hfree c (List.mem_cons_of_mem _ hc)
      by_cases hc0 : c0 = d
      · cases hfc : findClose d rest with
        | none =>
          rw [hc0, replaceLazy_cons_none _ _ _ _ hfc]
          cases m with
          | zero => simp
          | succ m =>
            rw [List.take_succ_cons]
            intro hmem
            rcases List.mem_cons.mp hmem with h | h
            · exact hfree c0 (by simp) (hc0 ▸ h.symm)
            · exact ih rest hl' hfree' m (by omega) h
        | some p' =>
          rw [hc0, replaceLazy_cons_some _ _ _ _ _ _ hfc]
          intro hmem
          rw [show p ++ p'.1 ++ s ++ replaceLazy d p s p'.2 =
              p ++ (p'.1 ++ s ++ replaceLazy d p s p'.2) by simp,
            List.take_append_eq_append_take] at hmem
          rcases List.mem_append.mp hmem with h | h
          · exact hp7 (mem_take_of_take_le hm h)
          · have : m - p.length = 0 := by omega
            rw [this] at h
            simp at h
      · rw [replaceLazy_cons_ne _ _ _ _ hc0]
        cases m with
        | zero => simp
        | succ m =>
          rw [List.take_succ_cons]
          intro hmem
          rcases List.mem_cons.mp hmem with h | h
          · exact hfree c0 (by simp) h.symm
          · exact ih rest hl' hfree' m (by omega) h

/-- Core congruence behind the "two copies differ only in styling" claim:
two lazy-pair replacements whose opening wraps strip to the same `P` and
which share the closing wrap produce identical strings after class-attribute
erasure, on quote-free input. -/
theorem stripe_replaceLazy_congr (d : Char) (p1 p2 s P : List Char) (hd : d ≠ '"')
    (hp1 : ∀ z, stripe (p1 ++ z) = P ++ stripe z)
    (hp2 : ∀ z, stripe (p2 ++ z) = P ++ stripe z)
    (hq1 : '"' ∉ p1.take 7) (hl1 : 7 ≤ p1.length)
    (hq2 : '"' ∉ p2.take 7) (hl2 : 7 ≤ p2.length)
    (hsfree : ∀ c ∈ s, c ≠ '"') (hs7 : '"' ∉ s.take 7) (hsl : 7 ≤ s.length) :
    ∀ (n : Nat) (t : List Char), t.length ≤ n → (∀ c ∈ t, c ≠ '"') →
      stripe (replaceLazy d p1 s t) = stripe (replaceLazy d p2 s t) := by
  intro n
  induction n with
  | zero =>
    intro t ht _
    rw [List.length_eq_zero.mp (Nat.le_zero.mp ht)]
    rfl
  | succ n ih =>
    intro t ht hfree
    cases t with
    | nil => rfl
    | cons c0 rest =>
      have ht' : rest.length ≤ n := by
        simp only [List.length_cons] at ht; omega
      have hfree' : ∀ c ∈ rest, c ≠ '"' :=
        fun c hc => hfree c (List.mem_cons_of_mem _ hc)
      have hcons : ∀ (c : Char) (pp : List Char), c ≠ '"' → '"' ∉ pp.take 7 → 7 ≤ pp.length →
          ∀ (l : List Char), l.length ≤ n → (∀ a ∈ l, a ≠ '"') →
          stripe (c :: replaceLazy d pp s l) = c :: stripe (replaceLazy d pp s l) := by
        intro c pp hcq hppq hppl l hll hlf
        apply stripe_cons_neg
        apply not_isClassStart_of_quotefree
        rw [List.take_succ_cons]
        intro hmem
        rcases List.mem_cons.mp hmem with h | h
        · exact hcq h.symm
        · exact quotefree_take_replaceLazy d pp s hppq hppl n l hll hlf 7 (by omega) h
      by_cases hc0 : c0 = d
      · cases hfc : findClose d rest with
        | none =>
          rw [hc0, replaceLazy_cons_none _ _ _ _ hfc, replaceLazy_cons_none _ _ _ _ hfc,
            hcons d p1 hd hq1 hl1 rest ht' hfree',
            hcons d p2 hd hq2 hl2 rest ht' hfree', ih rest ht' hfree']
        | some p' =>
          obtain ⟨he, hmemx, hlen⟩ := findClose_some d rest p'.1 p'.2 hfc
          have hxfree : ∀ c ∈ p'.1, c ≠ '"' :=
            fun c hc => hfree' c (hmemx c hc)
          have hrfree : ∀ c ∈ p'.2, c ≠ '"' := by
            intro c hc
            refine hfree' c ?_
            rw [he]
            simp [hc]
          have hrlen : p'.2.length ≤ n := by omega
          have hstep : ∀ (pp : List Char), (∀ z, stripe (pp ++ z) = P ++ stripe z) →
              '"' ∉ pp.take 7 → 7 ≤ pp.length →
              stripe (pp ++ p'.1 ++ s ++ replaceLazy d pp s p'.2) =
                P ++ p'.1 ++ s ++ stripe (replaceLazy d pp s p'.2) := by
            intro pp hpp hppq hppl
            rw [show pp ++ p'.1 ++ s ++ replaceLazy d pp s p'.2 =
                pp ++ (p'.1 ++ (s ++ replaceLazy d pp s p'.2)) by simp, hpp]
            rw [stripe_append_fresh p'.1 _ hxfree (by
              rw [List.take_append_eq_append_take, show (7 : Nat) - s.length = 0 by omega]
              simpa using hs7)]
            rw [stripe_append_fresh s _ hsfree
              (quotefree_take_replaceLazy d pp s hppq hppl n p'.2 hrlen hrfree 7 (by omega))]
            simp
          rw [hc0, replaceLazy_cons_some _ _ _ _ _ _ hfc, replaceLazy_cons_some _ _ _ _ _ _ hfc,
            hstep p1 hp1 hq1 hl1, hstep p2 hp2 hq2 hl2, ih p'.2 hrlen hrfree]
      · rw [replaceLazy_cons_ne _ _ _ _ hc0, replaceLazy_cons_ne _ _ _ _ hc0,
          hcons c0 p1 (fun h => hfree c0 (by simp) h) hq1 hl1 rest ht' hfree',
          hcons c0 p2 (fun h => hfree c0 (by simp) h) hq2 hl2 rest ht' hfree',
          ih rest ht' hfree']

theorem stripe_strongTheme (z : List Char) :
    stripe ("<strong class=\"text-foreground\">".data ++ z) = "<strong>".data ++ stripe z := rfl

theorem stripe_strongTailwind (z : List Char) :
    stripe ("<strong class=\"text-gray-700\">".data ++ z) = "<strong>".data ++ stripe z := rfl

theorem stripe_codeTheme (z : List Char) :
    stripe ("<code class=\"bg-muted px-1 rounded\">".data ++ z) = "<code>".data ++ stripe z := rfl

theorem stripe_codeTailwind (z : List Char) :
    stripe ("<code class=\"bg-gray-100 px-1 rounded\">".data ++ z) = "<code>".data ++ stripe z := rfl

/-- A string whose characters contain no double quote. -/
def NoQuote (s : String) : Prop := ∀ c ∈ s.data, c ≠ '"'

/-- A string whose characters contain no ampersand. -/
def NoAmp (s : String) : Prop := '&' ∉ s.data

instance (s : String) : Decidable (NoQuote s) := by
  unfold NoQuote; infer_instance

instance (s : String) : Decidable (NoAmp s) := by
  unfold NoAmp; infer_instance

/-- After class-attribute erasure the two context-renderer copies compute the
same markdown HTML, for any quote-free text. -/
theorem ctxMd_stripe_congr (t : String) (h : NoQuote t) :
    stripeS (ctxMdTheme t) = stripeS (ctxMdTailwind t) := by
  apply congrArg String.mk
  exact stripe_replaceLazy_congr '*'
    "<strong class=\"text-foreground\">".data "<strong class=\"text-gray-700\">".data
    "</strong>".data "<strong>".data (by decide)
    stripe_strongTheme stripe_strongTailwind
    (by decide) (by decide) (by decide) (by decide) (by decide) (by decide) (by decide)
    t.data.length t.data le_rfl h

theorem mem_boldHtml (l : List Char) :
    ∀ c ∈ boldHtml l, c ∈ l ∨ c ∈ "<strong>".data ∨ c ∈ "</strong>".data :=
  mem_replaceLazy '*' _ _ l.length l le_rfl

theorem mem_italicHtml (l : List Char) :
    ∀ c ∈ italicHtml l, c ∈ l ∨ c ∈ "<em>".data ∨ c ∈ "</em>".data :=
  mem_replaceLazy '_' _ _ l.length l le_rfl

/-- After class-attribute erasure the two section-renderer copies compute the
same markdown HTML, for any quote-free, ampersand-free text (the bold,
italic and inline-code rules are fully active on such texts; the ampersand
exclusion makes the blockquote stage inert in both copies). -/
theorem sectionMd_stripe_congr (t : String) (hq : NoQuote t) (ha : NoAmp t) :
    stripeS (sectionMdTheme t) = stripeS (sectionMdTailwind t) := by
  have huq : ∀ c ∈ italicHtml (boldHtml t.data), c ≠ '"' := by
    intro c hc
    rcases mem_italicHtml _ c hc with h | h | h
    · rcases mem_boldHtml _ c h with h' | h' | h'
      · exact hq c h'
      · intro he; rw [he] at h'; simp at h'
      · intro he; rw [he] at h'; simp at h'
    · intro he; rw [he] at h; simp at h
    · intro he; rw [he] at h; simp at h
  have hua : '&' ∉ italicHtml (boldHtml t.data) := by
    intro hc
    rcases mem_italicHtml _ _ hc with h | h | h
    · rcases mem_boldHtml _ _ h with h' | h' | h'
      · exact ha h'
      · simp at h'
      · simp at h'
    · simp at h
    · simp at h
  have hcode : ∀ (pre : List Char), '&' ∉ pre → '&' ∉
      replaceLazy '`' pre "</code>".data (italicHtml (boldHtml t.data)) := by
    intro pre hpre hc
    rcases mem_replaceLazy '`' pre "</code>".data
        (italicHtml (boldHtml t.data)).length _ le_rfl _ hc with h | h | h
    · exact hua h
    · exact hpre h
    · simp at h
  have hqt : quoteHtmlTheme (codeHtmlTheme (italicHtml (boldHtml t.data))) =
      codeHtmlTheme (italicHtml (boldHtml t.data)) := by
    apply replaceGt_not_mem
    exact hcode _ (by decide)
  have hqw : quoteHtmlTailwind (codeHtmlTailwind (italicHtml (boldHtml t.data))) =
      codeHtmlTailwind (italicHtml (boldHtml t.data)) := by
    apply replaceGt_not_mem
    exact hcode _ (by decide)
  show String.mk (stripe (quoteHtmlTheme (codeHtmlTheme (italicHtml (boldHtml t.data))))) =
    String.mk (stripe (quoteHtmlTailwind (codeHtmlTailwind (italicHtml (boldHtml t.data)))))
  rw [hqt, hqw]
  apply congrArg String.mk
  exact stripe_replaceLazy_congr '`'
    "<code class=\"bg-muted px-1 rounded\">".data "<code class=\"bg-gray-100 px-1 rounded\">".data
    "</code>".data "<code>".data (by decide)
    stripe_codeTheme stripe_codeTailwind
    (by decide) (by decide) (by decide) (by decide) (by decide) (by decide) (by decide)
    (italicHtml (boldHtml t.data)).length _ le_rfl huq

/-- Erase the styling of a timeline entry: keep year, displayed title, hover
title and whether a trailing connector is present; drop the class strings. -/
def eraseTL (en : TLEntry) : Int × String × String × Bool :=
  (en.year, en.title, en.titleAttr, en.connector.isSome)

/-- Erase the styling of a rendered text object: keep whether it is the
markdown variant and its payload, with class attributes stripped from the
HTML; drop the `className`. -/
def eraseTextView : TextView → Bool × String
  | .mrkdwnHtml _ h => (true, stripeS h)
  | .plain _ t => (false, t)

/-- Erase the styling of a button view: keep label and click behaviour. -/
def eraseBtn (b : ButtonView) : String × List (String × String) :=
  (b.label, b.onClick)

/-- Erase the styling of a section view. -/
def eraseSec (v : SectionView) :
    Option (Bool × String) × Option (List (Bool × String)) ×
      Option (String × List (String × String)) :=
  (v.text.map eraseTextView, v.fields.map (List.map eraseTextView), v.button.map eraseBtn)

/-- The style-free shape of a context element view. -/
inductive ElemShape where
  | md (html : String)
  | plainT (text : String)
  | img (src : String) (alt : String)
  deriving DecidableEq, Repr

/-- Erase the styling of a context element view. -/
def eraseCtxElem : CtxElemView → ElemShape
  | .mdSpan _ h => .md (stripeS h)
  | .plainSpan _ t => .plainT t
  | .icon _ src alt => .img src alt

/-- Erase the styling of a context view. -/
def eraseCtx (v : CtxView) : List (Option ElemShape) :=
  v.children.map (Option.map eraseCtxElem)

theorem tlEntries_erase :
    ∀ (l : List TimelineEvent),
      (tlEntriesTheme l).map eraseTL = (tlEntriesTailwind l).map eraseTL := by
  intro l
  induction l with
  | nil => rfl
  | cons e rest ih =>
    cases rest with
    | nil => rfl
    | cons f rest' =>
      show (eraseTL _ :: (tlEntriesTheme (f :: rest')).map eraseTL) =
        (eraseTL _ :: (tlEntriesTailwind (f :: rest')).map eraseTL)
      rw [ih]
      rfl

/-! ## Click wiring helpers (for the absent-callback claim) -/

/-- Replace a button's click invocation list by the empty (no-op) list. -/
def inertBtn (b : ButtonView) : ButtonView :=
  { b with onClick := [] }

/-- Make every button of a block view inert, leaving all visual content
(classes, labels, texts) unchanged. -/
def inertBV : BlockView → BlockView
  | .section v => .section { v with button := v.button.map inertBtn }
  | .actions v => .actions { v with children := v.children.map inertBtn }
  | v => v

/-- Make every button of a rendered sequence inert. -/
def inertRoot (r : RootView) : RootView :=
  { r with children := r.children.map inertBV }

/-- All click invocation lists occurring in a block view. -/
def clicksBV : BlockView → List (List (String × String))
  | .section v =>
    match v.button with
    | some b => [b.onClick]
    | none => []
  | .actions v => v.children.map ButtonView.onClick
  | _ => []

/-- All click invocation lists occurring in a rendered sequence. -/
def clicksRoot (r : RootView) : List (List (String × String)) :=
  (r.children.map clicksBV).flatten

theorem handleAccessoryClick_false (b : SectionB) : handleAccessoryClick b false = [] := by
  unfold handleAccessoryClick
  cases b.accessory with
  | none => rfl
  | some a => cases a <;> rfl

theorem sectionTheme_button_none (s : SectionB) (cb : Bool) (h : s.accessory = none) :
    (sectionTheme s cb).button = none := by
  simp only [sectionTheme]
  rw [h]

theorem sectionTheme_button_image (s : SectionB) (cb : Bool) (i : ImageElement)
    (h : s.accessory = some (.image i)) : (sectionTheme s cb).button = none := by
  simp only [sectionTheme]
  rw [h]

theorem sectionTheme_button_some (s : SectionB) (cb : Bool) (btn : ButtonElement)
    (h : s.accessory = some (.button btn)) :
    (sectionTheme s cb).button =
      some ⟨buttonClassTheme btn.style, handleAccessoryClick s cb, btn.text.text⟩ := by
  simp only [sectionTheme]
  rw [h]

theorem sectionView_eq {v w : SectionView} (h1 : v.text = w.text) (h2 : v.fields = w.fields)
    (h3 : v.button = w.button) : v = w := by
  cases v; cases w; simp_all

theorem clicksBV_section (v : SectionView) :
    clicksBV (.section v) = match v.button with | some b => [b.onClick] | none => [] := rfl

theorem blockComponent_false (b : Block) :
    blockComponent b false = inertBV (blockComponent b true) := by
  cases b with
  | «section» s =>
    show BlockView.section (sectionTheme s false) =
      inertBV (BlockView.section (sectionTheme s true))
    unfold inertBV
    congr 1
    have htf : (sectionTheme s false).text = (sectionTheme s true).text := rfl
    have hff : (sectionTheme s false).fields = (sectionTheme s true).fields := rfl
    cases hacc : s.accessory with
    | none =>
      have h1 := sectionTheme_button_none s false hacc
      have h2 := sectionTheme_button_none s true hacc
      exact sectionView_eq htf hff (by simp [h1, h2])
    | some a =>
      cases a with
      | button btn =>
        have h1 := sectionTheme_button_some s false btn hacc
        have h2 := sectionTheme_button_some s true btn hacc
        have h3 : handleAccessoryClick s false = [] := handleAccessoryClick_false s
        exact sectionView_eq htf hff (by simp [h1, h2, h3, inertBtn])
      | image i =>
        have h1 := sectionTheme_button_image s false i hacc
        have h2 := sectionTheme_button_image s true i hacc
        exact sectionView_eq htf hff (by simp [h1, h2])
  | actions es =>
    show BlockView.actions (actionsView es false) =
      inertBV (BlockView.actions (actionsView es true))
    unfold inertBV actionsView
    simp only [List.map_map]
    rfl
  | header t => rfl
  | context es => rfl
  | divider => rfl
  | timeline evs => rfl
  | unknown => rfl

theorem clicksBV_blockComponent_false (b : Block) :
    ∀ l ∈ clicksBV (blockComponent b false), l = [] := by
  cases b with
  | «section» s =>
    intro l hl
    have hb : blockComponent (Block.section s) false = .section (sectionTheme s false) := rfl
    rw [hb, clicksBV_section] at hl
    cases hacc : s.accessory with
    | none =>
      rw [sectionTheme_button_none s false hacc] at hl
      simp at hl
    | some a =>
      cases a with
      | button btn =>
        rw [sectionTheme_button_some s false btn hacc] at hl
        simp at hl
        rw [hl]
        exact handleAccessoryClick_false s
      | image i =>
        rw [sectionTheme_button_image s false i hacc] at hl
        simp at hl
  | actions es =>
    intro l hl
    have hb : blockComponent (Block.actions es) false = .actions (actionsView es false) := rfl
    rw [hb] at hl
    rw [show clicksBV (.actions (actionsView es false)) =
      (actionsView es false).children.map ButtonView.onClick from rfl] at hl
    unfold actionsView at hl
    simp only [List.map_map, List.mem_map] at hl
    obtain ⟨e, -, he⟩ := hl
    rw [← he]
    rfl
  | header t => intro l hl; simp [blockComponent, clicksBV] at hl
  | context es => intro l hl; simp [blockComponent, clicksBV] at hl
  | divider => intro l hl; simp [blockComponent, dividerView, clicksBV] at hl
  | timeline evs => intro l hl; simp [blockComponent, clicksBV] at hl
  | unknown => intro l hl; simp [blockComponent, clicksBV] at hl

/-! ## Claims -/

/-- C1: the dispatcher renders every list of blocks without failing: the
empty list renders the container with zero children, and a block whose type
tag matches none of the six known kinds renders as the visible
"Unknown block type" placeholder while every valid block before and after it
renders in the original array order (`renderBlocks` is a total function and
maps the sequence positionally). -/
theorem C1_dispatcher_renders_all (pre post : List Block) (cb : Bool) :
    (renderBlocks [] cb).children = [] ∧
    (renderBlocks (pre ++ Block.unknown :: post) cb).children =
      pre.map (blockComponent · cb) ++
        BlockView.unknownPlaceholder "text-sm text-destructive p-2 bg-destructive/10 rounded"
          "Unknown block type" :: post.map (blockComponent · cb) := by
  constructor
  · rfl
  · show (pre ++ Block.unknown :: post).map (blockComponent · cb) = _
    rw [List.map_append, List.map_cons]
    rfl

theorem tlEntriesTheme_years (l : List TimelineEvent) :
    (tlEntriesTheme l).map TLEntry.year = l.map TimelineEvent.year := by
  have h := congrArg (List.map Prod.fst) (tlEntriesTheme_shape l)
  simpa [List.map_map] using h

/-- C2: the rendered timeline order is non-decreasing by year regardless of
input order, ties keep their input relative order (stable sort), the
rendered entries are exactly the sorted events (year, displayed title and
hover title), the sort permutes the input, and the Tailwind copy renders the
same event sequence as the theme copy. -/
theorem C2_timeline_sorted_stable (evs : List TimelineEvent) :
    ((timelineTheme evs).entries.map TLEntry.year).Pairwise (· ≤ ·) ∧
    (timelineTheme evs).entries.map (fun en => (en.year, en.title, en.titleAttr)) =
      (sortEventsByYear evs).map (fun e => (e.year, e.title, e.title)) ∧
    (∀ y : Int, (sortEventsByYear evs).filter (fun v => decide (v.year = y)) =
      evs.filter (fun v => decide (v.year = y))) ∧
    (sortEventsByYear evs).Perm evs ∧
    (timelineTailwind evs).entries.map (fun en => (en.year, en.title, en.titleAttr)) =
      (timelineTheme evs).entries.map (fun en => (en.year, en.title, en.titleAttr)) := by
  refine ⟨?_, ?_, ?_, ?_, ?_⟩
  · show ((tlEntriesTheme (sortEventsByYear evs)).map TLEntry.year).Pairwise (· ≤ ·)
    rw [tlEntriesTheme_years, List.pairwise_map]
    exact sortEventsByYear_pairwise evs
  · exact tlEntriesTheme_shape (sortEventsByYear evs)
  · intro y
    exact sortEventsByYear_filter y evs
  · exact sortEventsByYear_perm evs
  · show (tlEntriesTailwind (sortEventsByYear evs)).map _ = (tlEntriesTheme (sortEventsByYear evs)).map _
    rw [tlEntriesTailwind_shape, tlEntriesTheme_shape]

/-- C3: every rendered button (section accessory or actions element), when a
callback is supplied, dispatches exactly one invocation per click, carrying
`action_id || 'button'` and `value || ''`; an absent `action_id` yields the
fallback identifier `"button"` and an absent `value` the empty string — the
identifier is always a defined string. -/
theorem C3_button_click_contract (b : SectionB) (btn : ButtonElement) (e : ButtonElement)
    (es : List ButtonElement) :
    (b.accessory = some (.button btn) →
      handleAccessoryClick b true =
        [(jsOrString btn.action_id "button", jsOrString btn.value "")] ∧
      (sectionTheme b true).button =
        some ⟨buttonClassTheme btn.style, handleAccessoryClick b true, btn.text.text⟩ ∧
      (btn.action_id = none → btn.value = none →
        handleAccessoryClick b true = [("button", "")]) ∧
      (btn.action_id = none → (handleAccessoryClick b true).map Prod.fst = ["button"])) ∧
    handleClick e true = [(jsOrString e.action_id "button", jsOrString e.value "")] ∧
    (e.action_id = none → e.value = none → handleClick e true = [("button", "")]) ∧
    (actionsView es true).children.map ButtonView.onClick = es.map (handleClick · true) := by
  refine ⟨?_, rfl, ?_, ?_⟩
  · intro hacc
    have h1 : handleAccessoryClick b true =
        [(jsOrString btn.action_id "button", jsOrString btn.value "")] := by
      unfold handleAccessoryClick
      rw [hacc]
    refine ⟨h1, sectionTheme_button_some b true btn hacc, ?_, ?_⟩
    · intro ha hv
      rw [h1, ha, hv]
      rfl
    · intro ha
      rw [h1, ha]
      rfl
  · intro ha hv
    rw [show handleClick e true = [(jsOrString e.action_id "button", jsOrString e.value "")]
      from rfl, ha, hv]
    rfl
  · unfold actionsView
    simp [List.map_map]

/-- Witness for C3 at a concrete button lacking both `action_id` and
`value`: the click dispatches exactly `("button", "")`. -/
theorem C3_witness :
    handleAccessoryClick
      ⟨none, none, some (.button ⟨⟨"plain_text", "View", none⟩, none, none, none⟩)⟩ true =
      [("button", "")] :=
  (((C3_button_click_contract
      ⟨none, none, some (.button ⟨⟨"plain_text", "View", none⟩, none, none, none⟩)⟩
      ⟨⟨"plain_text", "View", none⟩, none, none, none⟩
      ⟨⟨"plain_text", "x", none⟩, none, none, none⟩ []).1 rfl).2.2.1) rfl rfl

/-- C4 counterexample: the claim requires a line beginning with `"> "` to
render as a blockquote with the delimiter stripped; the theme section
renderer leaves `"> hello"` entirely unchanged (visible `"> "` remains, no
blockquote is produced), because the code's regex matches the HTML-escaped
trigger `"&gt; "` instead — as the second equation shows. -/
theorem C4_counterexample :
    sectionMdTheme "> hello" = "> hello" ∧
    sectionMdTheme "&gt; hello" =
      "<blockquote class=\"border-l-4 border-border pl-3 my-2 text-muted-foreground\">hello</blockquote>" := by
  constructor
  · decide
  · decide

/-- A string containing none of the emphasis-relevant characters: the three
pair delimiters, the ampersand that starts the blockquote trigger, and the
newline (which regex `.` never matches). -/
def EmphasisFresh (s : String) : Prop :=
  ∀ c ∈ s.data, c ≠ '*' ∧ c ≠ '_' ∧ c ≠ '`' ∧ c ≠ '&' ∧ c ≠ '\n'

instance (s : String) : Decidable (EmphasisFresh s) := by
  unfold EmphasisFresh; infer_instance

theorem emphFresh_not_mem {s : String} (h : EmphasisFresh s) :
    '*' ∉ s.data ∧ '_' ∉ s.data ∧ '`' ∉ s.data ∧ '&' ∉ s.data ∧ '\n' ∉ s.data := by
  refine ⟨fun hm => (h _ hm).1 rfl, fun hm => (h _ hm).2.1 rfl, fun hm => (h _ hm).2.2.1 rfl,
    fun hm => (h _ hm).2.2.2.1 rfl, fun hm => (h _ hm).2.2.2.2 rfl⟩

theorem not_mem_five {c : Char} {A X B w1 w2 : List Char} (hA : c ∉ A) (h1 : c ∉ w1)
    (hX : c ∉ X) (h2 : c ∉ w2) (hB : c ∉ B) :
    c ∉ A ++ (w1 ++ (X ++ (w2 ++ B))) := by
  intro hm
  simp only [List.mem_append] at hm
  tauto

theorem not_mem_three {c : Char} {A w X : List Char} (hA : c ∉ A) (h1 : c ∉ w) (hX : c ∉ X) :
    c ∉ A ++ (w ++ X) := by
  intro hm
  simp only [List.mem_append] at hm
  tauto

theorem not_mem_mid {c d : Char} {A B : List Char} (hA : c ∉ A) (h1 : c ≠ d) (hB : c ∉ B) :
    c ∉ A ++ d :: B := by
  intro hm
  rcases List.mem_append.mp hm with h | h
  · exact hA h
  · rcases List.mem_cons.mp h with h | h
    · exact h1 h
    · exact hB h

theorem data_ne_nil {x : String} (h : x ≠ "") : x.data ≠ [] := by
  intro hd
  exact h (String.ext hd)

/-- Generic single-pair conjunct: one delimited span in otherwise fresh text
is wrapped, with the delimiters stripped, by the pair stage of the pipeline,
and the other three stages leave the result untouched.  Stated for an
arbitrary `replaceLazy` stage and reused for bold, italic and code. -/
theorem pair_stage_match (d : Char) (pre suf : List Char) (A X B : List Char)
    (hA : d ∉ A) (hX : d ∉ X) (hXn : '\n' ∉ X) (hXne : X ≠ []) (hB : d ∉ B) :
    replaceLazy d pre suf (A ++ (d :: (X ++ d :: B))) =
      A ++ (pre ++ (X ++ (suf ++ B))) := by
  rw [replaceLazy_append_left d pre suf A _ hA,
    replaceLazy_match d pre suf X B hXne hX hXn,
    replaceLazy_not_mem d pre suf B hB]
  simp

/-- C4 (amended): the theme section markdown transformation wraps `*X*` in
`<strong>`, `_X_` in `<em>` and `` `X` `` in the code tag, stripping the
delimiter pairs; the blockquote rule fires on the literal escaped trigger
`"&gt; "` (not on a raw `"> "` line prefix), taking the rest of the text up
to a newline; an unmatched delimiter is left literal, and text free of all
delimiters is returned verbatim. -/
theorem C4_amended_markdown (a x b : String) (ha : EmphasisFresh a) (hx : EmphasisFresh x)
    (hb : EmphasisFresh b) (hxne : x ≠ "") :
    sectionMdTheme (a ++ "*" ++ x ++ "*" ++ b) = a ++ "<strong>" ++ x ++ "</strong>" ++ b ∧
    sectionMdTheme (a ++ "_" ++ x ++ "_" ++ b) = a ++ "<em>" ++ x ++ "</em>" ++ b ∧
    sectionMdTheme (a ++ "`" ++ x ++ "`" ++ b) =
      a ++ "<code class=\"bg-muted px-1 rounded\">" ++ x ++ "</code>" ++ b ∧
    sectionMdTheme (a ++ "&gt; " ++ x) =
      a ++ "<blockquote class=\"border-l-4 border-border pl-3 my-2 text-muted-foreground\">" ++
        x ++ "</blockquote>" ∧
    sectionMdTheme (a ++ "*" ++ b) = a ++ "*" ++ b ∧
    sectionMdTheme (a ++ "_" ++ b) = a ++ "_" ++ b ∧
    sectionMdTheme (a ++ "`" ++ b) = a ++ "`" ++ b ∧
    sectionMdTheme a = a := by
  obtain ⟨has, hau, hat, haa, han⟩ := emphFresh_not_mem ha
  obtain ⟨hxs, hxu, hxt, hxa, hxn⟩ := emphFresh_not_mem hx
  obtain ⟨hbs, hbu, hbt, hba, hbn⟩ := emphFresh_not_mem hb
  have hxd : x.data ≠ [] := data_ne_nil hxne
  refine ⟨?_, ?_, ?_, ?_, ?_, ?_, ?_, ?_⟩
  · -- bold
    apply String.ext
    show quoteHtmlTheme (codeHtmlTheme (italicHtml (boldHtml
      (a ++ "*" ++ x ++ "*" ++ b).data))) = _
    have hd : (a ++ "*" ++ x ++ "*" ++ b).data =
        a.data ++ ('*' :: (x.data ++ '*' :: b.data)) := by
      simp [String.data_append]
    rw [hd]
    rw [show boldHtml (a.data ++ ('*' :: (x.data ++ '*' :: b.data))) =
        a.data ++ ("<strong>".data ++ (x.data ++ ("</strong>".data ++ b.data))) from
      pair_stage_match '*' _ _ _ _ _ has hxs hxn hxd hbs]
    rw [show italicHtml (a.data ++ ("<strong>".data ++ (x.data ++ ("</strong>".data ++ b.data)))) =
        a.data ++ ("<strong>".data ++ (x.data ++ ("</strong>".data ++ b.data))) from
      replaceLazy_not_mem '_' _ _ _
        (not_mem_five hau (by decide) hxu (by decide) hbu)]
    rw [show codeHtmlTheme (a.data ++ ("<strong>".data ++ (x.data ++ ("</strong>".data ++ b.data)))) =
        a.data ++ ("<strong>".data ++ (x.data ++ ("</strong>".data ++ b.data))) from
      replaceLazy_not_mem '`' _ _ _
        (not_mem_five hat (by decide) hxt (by decide) hbt)]
    rw [show quoteHtmlTheme (a.data ++ ("<strong>".data ++ (x.data ++ ("</strong>".data ++ b.data)))) =
        a.data ++ ("<strong>".data ++ (x.data ++ ("</strong>".data ++ b.data))) from
      replaceGt_not_mem _ _ _
        (not_mem_five haa (by decide) hxa (by decide) hba)]
    simp [String.data_append]
  · -- italic
    apply String.ext
    show quoteHtmlTheme (codeHtmlTheme (italicHtml (boldHtml
      (a ++ "_" ++ x ++ "_" ++ b).data))) = _
    have hd : (a ++ "_" ++ x ++ "_" ++ b).data =
        a.data ++ ('_' :: (x.data ++ '_' :: b.data)) := by
      simp [String.data_append]
    rw [hd]
    rw [show boldHtml (a.data ++ ('_' :: (x.data ++ '_' :: b.data))) =
        a.data ++ ('_' :: (x.data ++ '_' :: b.data)) from
      replaceLazy_not_mem '*' _ _ _
        (not_mem_mid has (by decide) (not_mem_mid hxs (by decide) hbs))]
    rw [show italicHtml (a.data ++ ('_' :: (x.data ++ '_' :: b.data))) =
        a.data ++ ("<em>".data ++ (x.data ++ ("</em>".data ++ b.data))) from
      pair_stage_match '_' _ _ _ _ _ hau hxu hxn hxd hbu]
    rw [show codeHtmlTheme (a.data ++ ("<em>".data ++ (x.data ++ ("</em>".data ++ b.data)))) =
        a.data ++ ("<em>".data ++ (x.data ++ ("</em>".data ++ b.data))) from
      replaceLazy_not_mem '`' _ _ _
        (not_mem_five hat (by decide) hxt (by decide) hbt)]
    rw [show quoteHtmlTheme (a.data ++ ("<em>".data ++ (x.data ++ ("</em>".data ++ b.data)))) =
        a.data ++ ("<em>".data ++ (x.data ++ ("</em>".data ++ b.data))) from
      replaceGt_not_mem _ _ _
        (not_mem_five haa (by decide) hxa (by decide) hba)]
    simp [String.data_append]
  · -- inline code
    apply String.ext
    show quoteHtmlTheme (codeHtmlTheme (italicHtml (boldHtml
      (a ++ "`" ++ x ++ "`" ++ b).data))) = _
    have hd : (a ++ "`" ++ x ++ "`" ++ b).data =
        a.data ++ ('`' :: (x.data ++ '`' :: b.data)) := by
      simp [String.data_append]
    rw [hd]
    rw [show boldHtml (a.data ++ ('`' :: (x.data ++ '`' :: b.data))) =
        a.data ++ ('`' :: (x.data ++ '`' :: b.data)) from
      replaceLazy_not_mem '*' _ _ _
        (not_mem_mid has (by decide) (not_mem_mid hxs (by decide) hbs))]
    rw [show italicHtml (a.data ++ ('`' :: (x.data ++ '`' :: b.data))) =
        a.data ++ ('`' :: (x.data ++ '`' :: b.data)) from
      replaceLazy_not_mem '_' _ _ _
        (not_mem_mid hau (by decide) (not_mem_mid hxu (by decide) hbu))]
    rw [show codeHtmlTheme (a.data ++ ('`' :: (x.data ++ '`' :: b.data))) =
        a.data ++ ("<code class=\"bg-muted px-1 rounded\">".data ++
          (x.data ++ ("</code>".data ++ b.data))) from
      pair_stage_match '`' _ _ _ _ _ hat hxt hxn hxd hbt]
    rw [show quoteHtmlTheme (a.data ++ ("<code class=\"bg-muted px-1 rounded\">".data ++
        (x.data ++ ("</code>".data ++ b.data)))) =
        a.data ++ ("<code class=\"bg-muted px-1 rounded\">".data ++
          (x.data ++ ("</code>".data ++ b.data))) from
      replaceGt_not_mem _ _ _
        (not_mem_five haa (by decide) hxa (by decide) hba)]
    simp [String.data_append]
  · -- blockquote on the escaped trigger
    apply String.ext
    show quoteHtmlTheme (codeHtmlTheme (italicHtml (boldHtml
      (a ++ "&gt; " ++ x).data))) = _
    have hd : (a ++ "&gt; " ++ x).data = a.data ++ (gtTrigger ++ x.data) := by
      simp [String.data_append, gtTrigger]
    rw [hd]
    rw [show boldHtml (a.data ++ (gtTrigger ++ x.data)) = a.data ++ (gtTrigger ++ x.data) from
      replaceLazy_not_mem '*' _ _ _ (not_mem_three has (by decide) hxs)]
    rw [show italicHtml (a.data ++ (gtTrigger ++ x.data)) = a.data ++ (gtTrigger ++ x.data) from
      replaceLazy_not_mem '_' _ _ _ (not_mem_three hau (by decide) hxu)]
    rw [show codeHtmlTheme (a.data ++ (gtTrigger ++ x.data)) =
        a.data ++ (gtTrigger ++ x.data) from
      replaceLazy_not_mem '`' _ _ _ (not_mem_three hat (by decide) hxt)]
    show replaceGt _ _ (a.data ++ (gtTrigger ++ x.data)) = _
    rw [replaceGt_append_left _ _ a.data _ haa, replaceGt_trigger _ _ x.data hxd hxn]
    simp [String.data_append]
  · -- unmatched asterisk
    apply String.ext
    show quoteHtmlTheme (codeHtmlTheme (italicHtml (boldHtml (a ++ "*" ++ b).data))) = _
    have hd : (a ++ "*" ++ b).data = a.data ++ '*' :: b.data := by
      simp [String.data_append]
    rw [hd]
    rw [show boldHtml (a.data ++ '*' :: b.data) = a.data ++ '*' :: b.data from
      replaceLazy_single '*' _ _ _ _ has hbs]
    rw [show italicHtml (a.data ++ '*' :: b.data) = a.data ++ '*' :: b.data from
      replaceLazy_not_mem '_' _ _ _ (not_mem_mid hau (by decide) hbu)]
    rw [show codeHtmlTheme (a.data ++ '*' :: b.data) = a.data ++ '*' :: b.data from
      replaceLazy_not_mem '`' _ _ _ (not_mem_mid hat (by decide) hbt)]
    rw [show quoteHtmlTheme (a.data ++ '*' :: b.data) = a.data ++ '*' :: b.data from
      replaceGt_not_mem _ _ _ (not_mem_mid haa (by decide) hba)]
  · -- unmatched underscore
    apply String.ext
    show quoteHtmlTheme (codeHtmlTheme (italicHtml (boldHtml (a ++ "_" ++ b).data))) = _
    have hd : (a ++ "_" ++ b).data = a.data ++ '_' :: b.data := by
      simp [String.data_append]
    rw [hd]
    rw [show boldHtml (a.data ++ '_' :: b.data) = a.data ++ '_' :: b.data from
      replaceLazy_not_mem '*' _ _ _ (not_mem_mid has (by decide) hbs)]
    rw [show italicHtml (a.data ++ '_' :: b.data) = a.data ++ '_' :: b.data from
      replaceLazy_single '_' _ _ _ _ hau hbu]
    rw [show codeHtmlTheme (a.data ++ '_' :: b.data) = a.data ++ '_' :: b.data from
      replaceLazy_not_mem '`' _ _ _ (not_mem_mid hat (by decide) hbt)]
    rw [show quoteHtmlTheme (a.data ++ '_' :: b.data) = a.data ++ '_' :: b.data from
      replaceGt_not_mem _ _ _ (not_mem_mid haa (by decide) hba)]
  · -- unmatched backtick
    apply String.ext
    show quoteHtmlTheme (codeHtmlTheme (italicHtml (boldHtml (a ++ "`" ++ b).data))) = _
    have hd : (a ++ "`" ++ b).data = a.data ++ '`' :: b.data := by
      simp [String.data_append]
    rw [hd]
    rw [show boldHtml (a.data ++ '`' :: b.data) = a.data ++ '`' :: b.data from
      replaceLazy_not_mem '*' _ _ _ (not_mem_mid has (by decide) hbs)]
    rw [show italicHtml (a.data ++ '`' :: b.data) = a.data ++ '`' :: b.data from
      replaceLazy_not_mem '_' _ _ _ (not_mem_mid hau (by decide) hbu)]
    rw [show codeHtmlTheme (a.data ++ '`' :: b.data) = a.data ++ '`' :: b.data from
      replaceLazy_single '`' _ _ _ _ hat hbt]
    rw [show quoteHtmlTheme (a.data ++ '`' :: b.data) = a.data ++ '`' :: b.data from
      replaceGt_not_mem _ _ _ (not_mem_mid haa (by decide) hba)]
  · -- delimiter-free text is verbatim
    apply String.ext
    show quoteHtmlTheme (codeHtmlTheme (italicHtml (boldHtml a.data))) = _
    rw [show boldHtml a.data = a.data from replaceLazy_not_mem '*' _ _ _ has,
      show italicHtml a.data = a.data from replaceLazy_not_mem '_' _ _ _ hau,
      show codeHtmlTheme a.data = a.data from replaceLazy_not_mem '`' _ _ _ hat,
      show quoteHtmlTheme a.data = a.data from replaceGt_not_mem _ _ _ haa]

/-- Witness for the amended C4 at concrete fresh pieces. -/
theorem C4_witness :
    sectionMdTheme ("see " ++ "*" ++ "bold" ++ "*" ++ "!") =
      "see " ++ "<strong>" ++ "bold" ++ "</strong>" ++ "!" :=
  (C4_amended_markdown "see " "bold" "!" (by decide) (by decide) (by decide)
    (by decide)).1

/-- C5 counterexample: the context renderer does not apply the full
emphasis substitution of the section renderer — on the markdown text
`"_x_"` the section transformation produces `<em>x</em>` while the context
transformation leaves the underscores literal, so the two differ. -/
theorem C5_counterexample :
    ctxMdTheme "_x_" = "_x_" ∧ sectionMdTheme "_x_" = "<em>x</em>" ∧
      ctxMdTheme "_x_" ≠ sectionMdTheme "_x_" := by
  refine ⟨by decide, by decide, by decide⟩

/-- C5 (amended): a Context markdown element receives only the bold rule of
the substitution grammar — a `*X*` span is wrapped (delimiters stripped),
while any text without an asterisk, including texts with `_`, `` ` `` or
`"&gt; "` delimiters, is rendered verbatim; the rendered span carries
exactly `ctxMdTheme` of the stored text. -/
theorem C5_amended_context_bold_only (a x b s : String) (ha : '*' ∉ a.data)
    (hx : '*' ∉ x.data) (hxn : '\n' ∉ x.data) (hxe : x ≠ "") (hb : '*' ∉ b.data)
    (hs : '*' ∉ s.data) :
    ctxMdTheme s = s ∧
    ctxMdTheme (a ++ "*" ++ x ++ "*" ++ b) =
      a ++ "<strong class=\"text-foreground\">" ++ x ++ "</strong>" ++ b ∧
    (∀ e : Option Bool, renderElementTheme (.text ⟨"mrkdwn", s, e⟩) =
      some (.mdSpan "text-xs text-muted-foreground" (ctxMdTheme s))) := by
  refine ⟨?_, ?_, fun e => rfl⟩
  · apply String.ext
    exact replaceLazy_not_mem '*' _ _ _ hs
  · apply String.ext
    show replaceLazy '*' _ _ (a ++ "*" ++ x ++ "*" ++ b).data = _
    have hd : (a ++ "*" ++ x ++ "*" ++ b).data =
        a.data ++ ('*' :: (x.data ++ '*' :: b.data)) := by
      simp [String.data_append]
    rw [hd, pair_stage_match '*' _ _ _ _ _ ha hx hxn (data_ne_nil hxe) hb]
    simp [String.data_append]

/-- Witness for the amended C5: concrete bold span in a context element and
a verbatim text carrying italic delimiters. -/
theorem C5_witness :
    ctxMdTheme "_lit_" = "_lit_" ∧
    ctxMdTheme ("n " ++ "*" ++ "b" ++ "*" ++ "") =
      "n " ++ "<strong class=\"text-foreground\">" ++ "b" ++ "</strong>" ++ "" :=
  ⟨(C5_amended_context_bold_only "n " "b" "" "_lit_" (by decide) (by decide) (by decide)
      (by decide) (by decide) (by decide)).1,
   (C5_amended_context_bold_only "n " "b" "" "_lit_" (by decide) (by decide) (by decide)
      (by decide) (by decide) (by decide)).2.1⟩

theorem sectionTailwind_button_none (s : SectionB) (cb : Bool) (h : s.accessory = none) :
    (sectionTailwind s cb).button = none := by
  simp only [sectionTailwind]
  rw [h]

theorem sectionTailwind_button_image (s : SectionB) (cb : Bool) (i : ImageElement)
    (h : s.accessory = some (.image i)) : (sectionTailwind s cb).button = none := by
  simp only [sectionTailwind]
  rw [h]

theorem sectionTailwind_button_some (s : SectionB) (cb : Bool) (btn : ButtonElement)
    (h : s.accessory = some (.button btn)) :
    (sectionTailwind s cb).button =
      some ⟨buttonClassTailwind btn.style, handleAccessoryClick s cb, btn.text.text⟩ := by
  simp only [sectionTailwind]
  rw [h]

theorem sectionTailwindView_eq {v w : SectionView} (h1 : v.text = w.text)
    (h2 : v.fields = w.fields) (h3 : v.button = w.button) : v = w :=
  sectionView_eq h1 h2 h3

/-- C6 counterexample: a Section whose accessory is an image renders exactly
as the same Section with no accessory at all — the image does not appear in
the output, refuting "the image appears in the rendered output". -/
theorem C6_counterexample :
    sectionTheme ⟨some ⟨"plain_text", "hi", none⟩, none,
        some (.image ⟨"http://img", "alt"⟩)⟩ true =
      sectionTheme ⟨some ⟨"plain_text", "hi", none⟩, none, none⟩ true ∧
    handleAccessoryClick ⟨some ⟨"plain_text", "hi", none⟩, none,
        some (.image ⟨"http://img", "alt"⟩)⟩ true = [] :=
  ⟨rfl, rfl⟩

/-- C6 (amended): an `ImageElement` accessory is ignored entirely by both
section copies — nothing is rendered for it (the view equals that of the
accessory-free block) and no callback is ever wired (a click performs no
invocation). -/
theorem C6_amended_image_ignored (s : SectionB) (i : ImageElement) (cb : Bool)
    (h : s.accessory = some (.image i)) :
    sectionTheme s cb = sectionTheme { s with accessory := none } cb ∧
    sectionTailwind s cb = sectionTailwind { s with accessory := none } cb ∧
    handleAccessoryClick s cb = [] := by
  refine ⟨?_, ?_, ?_⟩
  · exact sectionView_eq rfl rfl (by
      rw [sectionTheme_button_image s cb i h, sectionTheme_button_none _ cb rfl])
  · exact sectionView_eq rfl rfl (by
      rw [sectionTailwind_button_image s cb i h, sectionTailwind_button_none _ cb rfl])
  · unfold handleAccessoryClick
    rw [h]

/-- Witness for the amended C6 at a concrete image accessory. -/
theorem C6_witness :
    sectionTheme ⟨none, none, some (.image ⟨"u", "a"⟩)⟩ false =
      sectionTheme ⟨none, none, none⟩ false ∧
    handleAccessoryClick ⟨none, none, some (.image ⟨"u", "a"⟩)⟩ false = [] :=
  ⟨(C6_amended_image_ignored ⟨none, none, some (.image ⟨"u", "a"⟩)⟩ ⟨"u", "a"⟩ false rfl).1,
   (C6_amended_image_ignored ⟨none, none, some (.image ⟨"u", "a"⟩)⟩ ⟨"u", "a"⟩ false rfl).2.2⟩

/-- C7: rendering without a callback yields the same views as rendering with
one except that every button's click list is empty — interactive elements
still render visually (classes, labels, texts unchanged) and every click is
a no-op (the invocation list of every rendered button is empty; the model is
total, so no exception can arise). -/
theorem C7_absent_callback_inert (bs : List Block) :
    renderBlocks bs false = inertRoot (renderBlocks bs true) ∧
    ∀ l ∈ clicksRoot (renderBlocks bs false), l = [] := by
  constructor
  · unfold renderBlocks inertRoot
    simp only [List.map_map]
    congr 1
    apply List.map_congr_left
    intro b _
    exact blockComponent_false b
  · intro l hl
    unfold clicksRoot renderBlocks at hl
    simp only [List.map_map, List.mem_flatten, List.mem_map] at hl
    obtain ⟨ll, ⟨bb, hbb, hbl⟩, hlin⟩ := hl
    apply clicksBV_blockComponent_false bb
    rw [show clicksBV (blockComponent bb false) = ll from hbl]
    exact hlin

/-- C8: the renderer is deterministic — the same block sequence and the same
callback always produce structurally identical output (the embedding is a
pure function of its two inputs, mirroring the stateless source components,
which use no hooks, randomness or ambient state). -/
theorem C8_deterministic (bs bs' : List Block) (cb cb' : Bool) (h1 : bs = bs')
    (h2 : cb = cb') : renderBlocks bs cb = renderBlocks bs' cb' := by
  subst h1
  subst h2
  rfl

/-- Witness for C8 at a concrete sequence. -/
theorem C8_witness :
    renderBlocks [Block.divider, Block.header ⟨"plain_text", "t", none⟩] true =
      renderBlocks [Block.divider, Block.header ⟨"plain_text", "t", none⟩] true :=
  C8_deterministic [Block.divider, Block.header ⟨"plain_text", "t", none⟩]
    [Block.divider, Block.header ⟨"plain_text", "t", none⟩] true true rfl rfl

theorem renderElementTheme_text (t : TextObject) :
    renderElementTheme (.text t) =
      if t.type = "mrkdwn" then
        some (.mdSpan "text-xs text-muted-foreground" (ctxMdTheme t.text))
      else if t.type = "plain_text" then
        some (.plainSpan "text-xs text-muted-foreground" t.text)
      else none := rfl

theorem renderElementTailwind_text (t : TextObject) :
    renderElementTailwind (.text t) =
      if t.type = "mrkdwn" then
        some (.mdSpan "text-xs text-gray-500" (ctxMdTailwind t.text))
      else if t.type = "plain_text" then
        some (.plainSpan "text-xs text-gray-500" t.text)
      else none := rfl

theorem eraseText_congr (t : TextObject) (h : NoQuote t.text ∧ NoAmp t.text) :
    eraseTextView (renderTextTheme t) = eraseTextView (renderTextTailwind t) := by
  unfold renderTextTheme renderTextTailwind
  by_cases ht : t.type = "mrkdwn"
  · rw [if_pos ht, if_pos ht]
    show (true, stripeS (sectionMdTheme t.text)) = (true, stripeS (sectionMdTailwind t.text))
    rw [sectionMd_stripe_congr t.text h.1 h.2]
  · rw [if_neg ht, if_neg ht]
    rfl

/-- C9: the two copies of each duplicated renderer produce the same output
up to styling.  After erasing class names from the views and class
attributes from the produced HTML: the Timeline copies agree on every input;
the Context copies agree whenever the markdown texts contain no double quote
(so the class-attribute eraser is well-behaved); the Section copies agree
whenever the texts contain no double quote and no ampersand (the bold,
italic and inline-code rules are fully exercised; the ampersand exclusion
keeps the blockquote stage, whose wrap also only differs in its class
string, inert).  Labels, hover titles, click invocation lists and dispatch
structure coincide exactly. -/
theorem C9_copies_equal_up_to_styling :
    (∀ evs : List TimelineEvent,
      (timelineTheme evs).entries.map eraseTL = (timelineTailwind evs).entries.map eraseTL) ∧
    (∀ es : List CtxElement, (∀ t : TextObject, CtxElement.text t ∈ es → NoQuote t.text) →
      eraseCtx (ctxTheme es) = eraseCtx (ctxTailwind es)) ∧
    (∀ (b : SectionB) (cb : Bool),
      (∀ t : TextObject, b.text = some t → NoQuote t.text ∧ NoAmp t.text) →
      (∀ (ts : List TextObject) (t : TextObject), b.fields = some ts → t ∈ ts →
        NoQuote t.text ∧ NoAmp t.text) →
      eraseSec (sectionTheme b cb) = eraseSec (sectionTailwind b cb)) := by
  refine ⟨?_, ?_, ?_⟩
  · intro evs
    exact tlEntries_erase (sortEventsByYear evs)
  · intro es hq
    unfold eraseCtx ctxTheme ctxTailwind
    simp only [List.map_map]
    apply List.map_congr_left
    intro e he
    show Option.map eraseCtxElem (renderElementTheme e) =
      Option.map eraseCtxElem (renderElementTailwind e)
    cases e with
    | text t =>
      rw [renderElementTheme_text, renderElementTailwind_text]
      by_cases h1 : t.type = "mrkdwn"
      · rw [if_pos h1, if_pos h1]
        show some (ElemShape.md (stripeS (ctxMdTheme t.text))) =
          some (ElemShape.md (stripeS (ctxMdTailwind t.text)))
        rw [ctxMd_stripe_congr t.text (hq t he)]
      · by_cases h2 : t.type = "plain_text"
        · rw [if_neg h1, if_neg h1, if_pos h2, if_pos h2]
          rfl
        · rw [if_neg h1, if_neg h1, if_neg h2, if_neg h2]
    | image i => rfl
  · intro b cb hT hF
    have hTex : (sectionTheme b cb).text.map eraseTextView =
        (sectionTailwind b cb).text.map eraseTextView := by
      show (b.text.map renderTextTheme).map eraseTextView =
        (b.text.map renderTextTailwind).map eraseTextView
      cases hbt : b.text with
      | none => rfl
      | some t =>
        show some (eraseTextView (renderTextTheme t)) =
          some (eraseTextView (renderTextTailwind t))
        rw [eraseText_congr t (hT t hbt)]
    have hFld : (sectionTheme b cb).fields.map (List.map eraseTextView) =
        (sectionTailwind b cb).fields.map (List.map eraseTextView) := by
      show (b.fields.map (List.map renderTextTheme)).map (List.map eraseTextView) =
        (b.fields.map (List.map renderTextTailwind)).map (List.map eraseTextView)
      cases hbf : b.fields with
      | none => rfl
      | some ts =>
        show some ((ts.map renderTextTheme).map eraseTextView) =
          some ((ts.map renderTextTailwind).map eraseTextView)
        simp only [List.map_map]
        congr 1
        apply List.map_congr_left
        intro t ht
        show eraseTextView (renderTextTheme t) = eraseTextView (renderTextTailwind t)
        exact eraseText_congr t (hF ts t hbf ht)
    have hBtn : (sectionTheme b cb).button.map eraseBtn =
        (sectionTailwind b cb).button.map eraseBtn := by
      cases hacc : b.accessory with
      | none =>
        rw [sectionTheme_button_none b cb hacc, sectionTailwind_button_none b cb hacc]
      | some a =>
        cases a with
        | button btn =>
          rw [sectionTheme_button_some b cb btn hacc, sectionTailwind_button_some b cb btn hacc]
          rfl
        | image i =>
          rw [sectionTheme_button_image b cb i hacc, sectionTailwind_button_image b cb i hacc]
    show ((sectionTheme b cb).text.map eraseTextView,
        (sectionTheme b cb).fields.map (List.map eraseTextView),
        (sectionTheme b cb).button.map eraseBtn) = _
    rw [hTex, hFld, hBtn]
    rfl

/-- Witness for C9 at concrete inputs: an out-of-order timeline, a context
element with a bold span, and a section with code and bold spans. -/
theorem C9_witness :
    (timelineTheme [⟨2020, "a", "id1"⟩, ⟨2019, "b", "id2"⟩]).entries.map eraseTL =
      (timelineTailwind [⟨2020, "a", "id1"⟩, ⟨2019, "b", "id2"⟩]).entries.map eraseTL ∧
    eraseCtx (ctxTheme [.text ⟨"mrkdwn", "*hi* there", none⟩]) =
      eraseCtx (ctxTailwind [.text ⟨"mrkdwn", "*hi* there", none⟩]) ∧
    eraseSec (sectionTheme ⟨some ⟨"mrkdwn", "use `npm` and *go*", none⟩, none, none⟩ true) =
      eraseSec (sectionTailwind ⟨some ⟨"mrkdwn", "use `npm` and *go*", none⟩, none, none⟩ true) :=
  ⟨C9_copies_equal_up_to_styling.1 _,
   C9_copies_equal_up_to_styling.2.1 _ (by
     intro t ht
     simp at ht
     subst ht
     decide),
   C9_copies_equal_up_to_styling.2.2 _ true (by
     intro t ht
     simp at ht
     subst ht
     decide) (by
     intro ts t hts ht
     simp at hts)⟩

/-- C10: a Context element whose `type` is none of the recognized kinds
(markdown text, plain text, or image) renders as nothing at all — the
`elements.map(renderElement)` entry is `null` (no placeholder, no error) and
every other element still renders in place — whereas the dispatcher renders
an unknown block type as the visible "Unknown block type" placeholder. -/
theorem C10_context_unknown_element_skipped (t : TextObject) (pre post : List CtxElement)
    (cb : Bool) (h1 : t.type ≠ "mrkdwn") (h2 : t.type ≠ "plain_text")
    (h3 : t.type ≠ "image") :
    renderElementTheme (.text t) = none ∧
    (ctxTheme (pre ++ .text t :: post)).children =
      pre.map renderElementTheme ++ none :: post.map renderElementTheme ∧
    blockComponent .unknown cb =
      .unknownPlaceholder "text-sm text-destructive p-2 bg-destructive/10 rounded"
        "Unknown block type" := by
  have hr : renderElementTheme (.text t) = none := by
    rw [renderElementTheme_text, if_neg h1, if_neg h2]
  refine ⟨hr, ?_, rfl⟩
  show (pre ++ .text t :: post).map renderElementTheme = _
  rw [List.map_append, List.map_cons, hr]

/-- Witness for C10 at a concrete `"video"`-tagged element between two valid
elements. -/
theorem C10_witness :
    renderElementTheme (.text ⟨"video", "clip", none⟩) = none ∧
    (ctxTheme ([.text ⟨"plain_text", "p", none⟩] ++
        CtxElement.text ⟨"video", "clip", none⟩ :: [.image ⟨"u", "alt"⟩])).children =
      [CtxElement.text ⟨"plain_text", "p", none⟩].map renderElementTheme ++
        none :: [CtxElement.image ⟨"u", "alt"⟩].map renderElementTheme ∧
    blockComponent .unknown true =
      .unknownPlaceholder "text-sm text-destructive p-2 bg-destructive/10 rounded"
        "Unknown block type" :=
  C10_context_unknown_element_skipped ⟨"video", "clip", none⟩
    [.text ⟨"plain_text", "p", none⟩] [.image ⟨"u", "alt"⟩] true
    (by decide) (by decide) (by decide)
